import Mathlib

/-!
Shallow embedding of the ColossalAI zero-sharding core
(`colossalai/zero/shard_utils/commons.py`,
`colossalai/zero/shard_utils/bucket_tensor_shard_strategy.py`,
`colossalai/zero/sharded_param/sharded_tensor.py`,
`colossalai/zero/init_ctx/init_context.py`) and proofs of the spec claims.

Tensors are modelled as flat integer payloads with shape / dtype / device
metadata; machine floats never enter the claims (they are about bit-exact
value transport, index arithmetic, flags and bookkeeping).
-/

namespace ColossalAI

/-- Element dtype of a torch tensor (the dtypes this code touches). -/
inductive DType where
  | f16 | f32 | f64 | i32 | i64
deriving DecidableEq, Repr

/-- Byte size of one element (torch `itemsize`). -/
def DType.itemsize : DType → Nat
  | .f16 => 2
  | .f32 => 4
  | .f64 => 8
  | .i32 => 4
  | .i64 => 8

/-- Device of a torch tensor. -/
inductive Device where
  | cpu
  | cuda (idx : Nat)
deriving DecidableEq, Repr

/-- Shallow model of `torch.Tensor`: shape / dtype / device metadata over a
flattened data payload.  Element values are abstracted as `Int` (the claims
are about bit-exact transport of values, never float arithmetic). -/
structure Tensor where
  shape : List Nat
  dtype : DType
  device : Device
  data : List Int
deriving DecidableEq, Repr

instance : Inhabited Tensor := ⟨⟨[], .f32, .cpu, []⟩⟩

/-- `torch.Tensor.numel` of the flattened payload. -/
def Tensor.numel (t : Tensor) : Nat := t.data.length

/-- Fuel-driven worker for `splitPieces` (structural recursion keeps it
kernel-computable; the fuel is always instantiated with the list length). -/
def splitPiecesGo (c : Nat) : Nat → List Int → List (List Int)
  | _, [] => []
  | 0, _ :: _ => []
  | fuel + 1, x :: xs => ((x :: xs).take c) :: splitPiecesGo c fuel ((x :: xs).drop c)

/-- Greedy split of a list into consecutive pieces of length `c`
(the helper behind `torch.chunk`). -/
def splitPieces (c : Nat) (l : List Int) : List (List Int) :=
  splitPiecesGo c l.length l

theorem splitPiecesGo_congr (c : Nat) (hc : 0 < c) :
    ∀ (f1 f2 : Nat) (l : List Int), l.length ≤ f1 → l.length ≤ f2 →
      splitPiecesGo c f1 l = splitPiecesGo c f2 l := by
  intro f1
  induction f1 with
  | zero =>
    intro f2 l h1 _
    have hl : l = [] := by
      cases l with
      | nil => rfl
      | cons x xs => simp at h1
    subst hl
    cases f2 <;> rfl
  | succ f ih =>
    intro f2 l h1 h2
    cases l with
    | nil => cases f2 <;> rfl
    | cons x xs =>
      cases f2 with
      | zero => simp at h2
      | succ g =>
        show ((x :: xs).take c) :: splitPiecesGo c f ((x :: xs).drop c)
            = ((x :: xs).take c) :: splitPiecesGo c g ((x :: xs).drop c)
        congr 1
        apply ih g
        · simp only [List.length_drop, List.length_cons]
          simp only [List.length_cons] at h1
          omega
        · simp only [List.length_drop, List.length_cons]
          simp only [List.length_cons] at h2
          omega

theorem splitPieces_nil (c : Nat) : splitPieces c [] = [] := rfl

theorem splitPieces_cons (c : Nat) (hc : 0 < c) (l : List Int) (hl : l ≠ []) :
    splitPieces c l = l.take c :: splitPieces c (l.drop c) := by
  cases l with
  | nil => exact absurd rfl hl
  | cons x xs =>
    show ((x :: xs).take c) :: splitPiecesGo c xs.length ((x :: xs).drop c) = _
    congr 1
    apply splitPiecesGo_congr c hc
    · simp only [List.length_drop, List.length_cons]
      omega
    · exact Nat.le_refl _

/-- `torch.Tensor.chunk n` on a 1-D tensor: pieces of length
`ceil(len / n)`; an empty tensor yields one empty chunk. -/
def torchChunk (l : List Int) (n : Nat) : List (List Int) :=
  if l.length = 0 then [[]]
  else splitPieces ((l.length + n - 1) / n) l

/-- The chunk list built by `get_shard`: `torch.chunk` output extended with
empty chunks until it has `world_size` entries (the `while` loop in
`commons.py`). -/
def shardChunks (data : List Int) (world_size : Nat) : List (List Int) :=
  let chunks0 := torchChunk data world_size
  chunks0 ++ List.replicate (world_size - chunks0.length) ([] : List Int)

/-- `get_shard` from `colossalai/zero/shard_utils/commons.py`:
chunk the flattened tensor, append empty chunks up to `world_size`,
zero-pad this rank's chunk to the first chunk's length (`F.pad`), and
return the padded shard together with the padding count. -/
def get_shard (data : List Int) (rank world_size : Nat) : List Int × Nat :=
  let chunks := shardChunks data world_size
  let num_to_pad := (chunks.headD []).length - (chunks.getD rank []).length
  ((chunks.getD rank []) ++ List.replicate num_to_pad 0, num_to_pad)

/-- The common shard length: every rank's padded shard has exactly this many
elements (`ceil(numel / world_size)`, or 0 for an empty tensor). -/
def shardLen (numel world_size : Nat) : Nat :=
  if numel = 0 then 0 else (numel + world_size - 1) / world_size

theorem splitPieces_flatten (c : Nat) (hc : 0 < c) (l : List Int) :
    (splitPieces c l).flatten = l := by
  rcases eq_or_ne l [] with rfl | hl
  · rfl
  · have hlt : (l.drop c).length < l.length := by
      simp only [List.length_drop]
      have := List.length_pos.mpr hl
      omega
    have ih := splitPieces_flatten c hc (l.drop c)
    rw [splitPieces_cons c hc l hl]
    simp [ih]
termination_by l.length
decreasing_by
  exact hlt

theorem splitPieces_piece_length (c : Nat) (hc : 0 < c) (l ch : List Int)
    (h : ch ∈ splitPieces c l) : ch.length ≤ c := by
  rcases eq_or_ne l [] with rfl | hl
  · simp [splitPieces_nil] at h
  · have hlt : (l.drop c).length < l.length := by
      simp only [List.length_drop]
      have := List.length_pos.mpr hl
      omega
    rw [splitPieces_cons c hc l hl] at h
    rcases List.mem_cons.mp h with h | h
    · subst h
      simp [List.length_take]
    · exact splitPieces_piece_length c hc (l.drop c) ch h
termination_by l.length
decreasing_by
  exact hlt

theorem splitPieces_length_le (c n : Nat) (l : List Int)
    (hc : 0 < c) (hn : l.length ≤ c * n) : (splitPieces c l).length ≤ n := by
  rcases eq_or_ne l [] with rfl | hl
  · simp [splitPieces_nil]
  · have hl1 := List.length_pos.mpr hl
    have hlt : (l.drop c).length < l.length := by
      simp only [List.length_drop]
      omega
    have hn1 : 1 ≤ n := by
      rcases Nat.eq_zero_or_pos n with h0 | h0
      · subst h0
        rw [Nat.mul_zero] at hn
        omega
      · exact h0
    have ih := splitPieces_length_le c (n - 1) (l.drop c) hc (by
      simp only [List.length_drop]
      have : c * n = c * (n - 1) + c := by
        cases n with
        | zero => omega
        | succ m => simp [Nat.mul_succ]
      omega)
    rw [splitPieces_cons c hc l hl]
    simp only [List.length_cons]
    omega
termination_by l.length
decreasing_by
  exact hlt

/-- The padded flatten of the pieces of `l`, truncated to `l.length`, is `l`:
padding sits only behind the real data of each (final) piece. -/
theorem splitPieces_pad_flatten_take (c : Nat) (hc : 0 < c) (l : List Int) :
    (((splitPieces c l).map
        (fun ch => ch ++ List.replicate (c - ch.length) 0)).flatten).take l.length = l := by
  rcases eq_or_ne l [] with rfl | hl
  · rfl
  · have hl1 := List.length_pos.mpr hl
    have hlt : (l.drop c).length < l.length := by
      simp only [List.length_drop]
      omega
    have ih := splitPieces_pad_flatten_take c hc (l.drop c)
    rw [splitPieces_cons c hc l hl]
    by_cases hcase : l.length ≤ c
    · have htake : l.take c = l := List.take_of_length_le hcase
      have hdrop : l.drop c = [] := List.drop_eq_nil_of_le hcase
      simp [htake, hdrop, splitPieces_nil, List.take_append_eq_append_take]
    · have hmin : (l.take c).length = c := by
        simp only [List.length_take]
        omega
      simp only [List.map_cons, List.flatten_cons]
      rw [List.take_append_eq_append_take]
      have hlen2 : (l.take c ++ List.replicate (c - (l.take c).length) 0).length = c := by
        simp [hmin]
      rw [List.take_of_length_le (by rw [hlen2]; omega)]
      rw [hlen2]
      simp only [List.length_drop] at ih
      rw [ih]
      simp [hmin, List.take_take]
termination_by l.length
decreasing_by
  exact hlt

theorem ceilDiv_mul_ge (N W : Nat) (hW : 1 ≤ W) : N ≤ (N + W - 1) / W * W := by
  have h1 := Nat.div_add_mod (N + W - 1) W
  have h2 := Nat.mod_lt (N + W - 1) (y := W) (by omega)
  have h3 : (N + W - 1) / W * W = W * ((N + W - 1) / W) := Nat.mul_comm _ _
  omega

theorem ceilDiv_le (N W : Nat) (hW : 1 ≤ W) (hN : 1 ≤ N) : (N + W - 1) / W ≤ N := by
  have h1 : (N + W - 1) / W < N + 1 := by
    rw [Nat.div_lt_iff_lt_mul (by omega)]
    have h2 : N ≤ N * W := Nat.le_mul_of_pos_right N (by omega)
    have h3 : (N + 1) * W = N * W + W := Nat.succ_mul N W
    omega
  omega

theorem ceilDiv_pos (N W : Nat) (hW : 1 ≤ W) (hN : 1 ≤ N) : 0 < (N + W - 1) / W := by
  have h1 := (Nat.le_div_iff_mul_le (k := W) (by omega)).mpr
    (show 1 * W ≤ N + W - 1 by omega)
  omega

theorem range_map_getD {α : Type} (l : List α) (d : α) :
    (List.range l.length).map (fun i => l.getD i d) = l := by
  apply List.ext_getElem
  · simp
  · intro i h1 h2
    simp only [List.getElem_map, List.getElem_range]
    rw [List.getD_eq_getElem l d h2]

theorem getD_map_range {α : Type} (n i : Nat) (f : Nat → α) (d : α) (h : i < n) :
    ((List.range n).map f).getD i d = f i := by
  rw [List.getD_eq_getElem _ d (by simp [h])]
  simp

theorem sum_le_mul_length (L : List Nat) (c : Nat) (h : ∀ x ∈ L, x ≤ c) :
    L.sum ≤ c * L.length := by
  induction L with
  | nil => simp
  | cons a tl ih =>
    have ha := h a (List.mem_cons_self a tl)
    have htl := ih (fun x hx => h x (List.mem_cons_of_mem a hx))
    simp only [List.sum_cons, List.length_cons, Nat.mul_succ]
    omega

theorem sum_map_sub_const (L : List Nat) (c : Nat) (h : ∀ x ∈ L, x ≤ c) :
    (L.map (fun x => c - x)).sum = c * L.length - L.sum := by
  induction L with
  | nil => simp
  | cons a tl ih =>
    have ha := h a (List.mem_cons_self a tl)
    have htl := ih (fun x hx => h x (List.mem_cons_of_mem a hx))
    have hsum := sum_le_mul_length tl c (fun x hx => h x (List.mem_cons_of_mem a hx))
    simp only [List.map_cons, List.sum_cons, List.length_cons, Nat.mul_succ]
    omega

theorem shardChunks_length (d : List Int) (W : Nat) (hW : 1 ≤ W) :
    (shardChunks d W).length = W := by
  have hk : (torchChunk d W).length ≤ W := by
    rw [torchChunk]
    split
    · simpa using hW
    · rename_i hne
      have hN : 1 ≤ d.length := by omega
      exact splitPieces_length_le _ W d (ceilDiv_pos d.length W hW hN)
        (by have := ceilDiv_mul_ge d.length W hW; omega)
  simp [shardChunks, List.length_append, List.length_replicate]
  omega

theorem shardChunks_head_length (d : List Int) (W : Nat) (hW : 1 ≤ W) :
    ((shardChunks d W).headD []).length = shardLen d.length W := by
  rw [shardChunks, torchChunk, shardLen]
  split
  · rename_i h0
    simp [h0]
  · rename_i h0
    have hN : 1 ≤ d.length := by omega
    have hc := ceilDiv_pos d.length W hW hN
    have hcle := ceilDiv_le d.length W hW hN
    rw [splitPieces_cons _ hc d (by intro he; rw [he] at hN; simp at hN)]
    simp only [List.cons_append, List.headD_cons, List.length_take]
    simp [h0]
    omega

theorem shardChunks_piece_le (d : List Int) (W : Nat) (hW : 1 ≤ W)
    (ch : List Int) (h : ch ∈ shardChunks d W) :
    ch.length ≤ shardLen d.length W := by
  rw [shardChunks] at h
  rcases List.mem_append.mp h with h | h
  · rw [torchChunk] at h
    split at h
    · rename_i h0
      simp at h
      simp [h, shardLen]
    · rename_i h0
      have hle := splitPieces_piece_length _
        (ceilDiv_pos d.length W hW (by omega)) _ _ h
      rw [shardLen, if_neg h0]
      exact hle
  · have := List.eq_of_mem_replicate h
    simp [this]

theorem shardChunks_getD_le (d : List Int) (W : Nat) (hW : 1 ≤ W) (r : Nat) :
    ((shardChunks d W).getD r []).length ≤ shardLen d.length W := by
  by_cases hr : r < (shardChunks d W).length
  · rw [List.getD_eq_getElem _ _ hr]
    exact shardChunks_piece_le d W hW _ (List.getElem_mem hr)
  · rw [List.getD_eq_default _ _ (by omega)]
    simp

/-- Every rank's padded shard has the common length `shardLen`. -/
theorem get_shard_length (d : List Int) (r W : Nat) (hW : 1 ≤ W) :
    ((get_shard d r W).1).length = shardLen d.length W := by
  have h1 := shardChunks_getD_le d W hW r
  have h2 := shardChunks_head_length d W hW
  simp only [get_shard, List.length_append, List.length_replicate, h2]
  omega

/-- The list of all ranks' shards, in rank order (the all-gather input). -/
def allShards (d : List Int) (W : Nat) : List (List Int) :=
  (List.range W).map (fun r => (get_shard d r W).1)

/-- Concatenating all ranks' padded shards in rank order and truncating to
the original element count restores the original data exactly. -/
theorem allShards_flatten_take (d : List Int) (W : Nat) (hW : 1 ≤ W) :
    ((allShards d W).flatten).take d.length = d := by
  have hlen := shardChunks_length d W hW
  have hhead := shardChunks_head_length d W hW
  have h1 : allShards d W
      = (shardChunks d W).map
          (fun ch => ch ++ List.replicate (shardLen d.length W - ch.length) 0) := by
    apply List.ext_getElem
    · simp [allShards, hlen]
    · intro i hi1 hi2
      simp only [allShards, List.length_range, List.length_map] at hi1
      simp only [allShards, List.getElem_map, List.getElem_range]
      simp only [get_shard, hhead]
      rw [List.getD_eq_getElem _ _ (by omega)]
  rcases Nat.eq_zero_or_pos d.length with h0 | h0
  · have : d = [] := List.length_eq_zero.mp h0
    simp [this]
  · have hc := ceilDiv_pos d.length W hW h0
    have hsl : shardLen d.length W = (d.length + W - 1) / W := by
      rw [shardLen, if_neg (by omega)]
    rw [h1, shardChunks, torchChunk, if_neg (by omega)]
    rw [List.map_append, List.flatten_append]
    rw [List.take_append_eq_append_take]
    have hmain := splitPieces_pad_flatten_take ((d.length + W - 1) / W) hc d
    rw [hsl]
    rw [hmain]
    have hlen1 : d.length ≤
        ((splitPieces ((d.length + W - 1) / W) d).map
          (fun ch => ch ++ List.replicate ((d.length + W - 1) / W - ch.length) 0)).flatten.length := by
      have := congrArg List.length hmain
      simp only [List.length_take] at this
      omega
    rw [Nat.sub_eq_zero_of_le hlen1]
    simp

theorem flatten_replicate_nil (n : Nat) :
    (List.replicate n ([] : List Int)).flatten = [] := by
  induction n with
  | zero => simp
  | succ m ih => simp [List.replicate_succ, ih]

/-- The raw chunks of `get_shard` concatenate back to the original data. -/
theorem shardChunks_flatten (d : List Int) (W : Nat) (hW : 1 ≤ W) :
    (shardChunks d W).flatten = d := by
  rw [shardChunks, torchChunk]
  split
  · rename_i h0
    have hd : d = [] := List.length_eq_zero.mp h0
    simp [hd, flatten_replicate_nil]
  · rename_i h0
    have hN : 1 ≤ d.length := by omega
    rw [List.flatten_append, flatten_replicate_nil,
      splitPieces_flatten _ (ceilDiv_pos d.length W hW hN) d]
    simp

/-- The per-rank padding counts of `get_shard` sum to
`shardLen * world_size - numel`. -/
theorem get_shard_pad_sum (d : List Int) (W : Nat) (hW : 1 ≤ W) :
    ((List.range W).map (fun r => (get_shard d r W).2)).sum
      = shardLen d.length W * W - d.length := by
  have hlen := shardChunks_length d W hW
  have hhead := shardChunks_head_length d W hW
  have h1 : (List.range W).map (fun r => (get_shard d r W).2)
      = (shardChunks d W).map (fun ch => shardLen d.length W - ch.length) := by
    apply List.ext_getElem
    · simp [hlen]
    · intro i hi1 hi2
      simp only [List.length_map, List.length_range] at hi1
      simp only [List.getElem_map, List.getElem_range]
      simp only [get_shard, hhead]
      rw [List.getD_eq_getElem _ _ (by omega)]
  have h2 : (shardChunks d W).map (fun ch => shardLen d.length W - ch.length)
      = ((shardChunks d W).map List.length).map (fun x => shardLen d.length W - x) := by
    rw [List.map_map]
    rfl
  have h3 : ∀ x ∈ (shardChunks d W).map List.length, x ≤ shardLen d.length W := by
    intro x hx
    rcases List.mem_map.mp hx with ⟨ch, hch, hx'⟩
    subst hx'
    exact shardChunks_piece_le d W hW ch hch
  have h4 : ((shardChunks d W).map List.length).sum = d.length := by
    have := congrArg List.length (shardChunks_flatten d W hW)
    simpa [List.length_flatten] using this
  rw [h1, h2, sum_map_sub_const _ _ h3, h4, List.length_map, hlen]

/-! ## The ShardedTensor data model (`sharded_param/sharded_tensor.py`) -/

/-- Shallow model of a `ShardedTensor` object.  `id` stands for Python object
identity (the key the memory tracer uses); `payload` is an `Option` because
`reset_payload(None)` is used by the bucket gather to release storage. -/
structure ShardedTensor where
  id : Nat
  payload : Option Tensor
  world_size : Nat
  local_rank : Nat
  is_sharded : Bool
  origin_shape : List Nat
  origin_numel : Nat
  origin_dtype : DType
deriving DecidableEq, Repr

instance : Inhabited ShardedTensor :=
  ⟨⟨0, none, 1, 0, false, [], 0, .f32⟩⟩

/-- `ShardedTensor.__init__`: snapshot origin shape / numel / dtype from the
payload, bind world size and rank from the process group, clear the flag. -/
def ShardedTensor.init (oid : Nat) (t : Tensor) (world_size rank : Nat) : ShardedTensor :=
  { id := oid
    payload := some t
    world_size := world_size
    local_rank := rank
    is_sharded := false
    origin_shape := t.shape
    origin_numel := t.numel
    origin_dtype := t.dtype }

/-- The current payload; total accessor used where the Python code reads
`.payload` of a tensor that provably has one. -/
def ShardedTensor.payloadD (st : ShardedTensor) : Tensor :=
  st.payload.getD default

/-- `ShardedTensor.reset_payload`: drop the old payload, take the new one. -/
def ShardedTensor.reset_payload (st : ShardedTensor) (t : Option Tensor) : ShardedTensor :=
  { st with payload := t }

/-- The `dtype` property returns `_origin_dtype` (after asserting the payload
agrees with it). -/
def ShardedTensor.dtype (st : ShardedTensor) : DType := st.origin_dtype

/-- Error raised by `copy_payload` (a torch `copy_` size mismatch carrying
both element counts, or a missing payload). -/
inductive CopyError where
  | size_mismatch (dst src : Nat)
  | no_payload
deriving DecidableEq, Repr

/-- `ShardedTensor.copy_payload`: `self._payload.view(-1).copy_(tensor.view(-1))`.
torch `copy_` copies element-wise when the flattened counts agree, broadcasts a
one-element source across the destination, and otherwise raises a RuntimeError
naming both sizes.  The payload object is kept: only its data changes. -/
def ShardedTensor.copy_payload (st : ShardedTensor) (src : Tensor) :
    Except CopyError ShardedTensor :=
  match st.payload with
  | none => .error .no_payload
  | some p =>
    if src.numel = p.numel then
      .ok { st with payload := some { p with data := src.data } }
    else if src.numel = 1 then
      .ok { st with payload := some { p with data := List.replicate p.numel (src.data.headD 0) } }
    else
      .error (.size_mismatch p.numel src.numel)

/-! ## MemoryTracer (`GLOBAL_MODEL_DATA_TRACER`) -/

/-- Modelled from the spec: the `ModelDataTracer` behind
`GLOBAL_MODEL_DATA_TRACER` (`colossalai/utils/memory_tracer/model_data_memtracer.py`)
is not among the given sources.  Spec §3/§4.4: it maps tracked-tensor identity
to byte size; `add_tensor`/`delete_tensor` adjust the running byte total keyed
by tensor identity. -/
structure ModelDataTracer where
  entries : List (Nat × Nat)
deriving DecidableEq, Repr

/-- Modelled from the spec: removing a tracked tensor removes its identity key
(removing an absent key changes nothing). -/
def ModelDataTracer.delete_tensor (m : ModelDataTracer) (st : ShardedTensor) : ModelDataTracer :=
  ⟨m.entries.filter (fun e => e.1 ≠ st.id)⟩

/-- Byte size of the current payload (numel times dtype itemsize). -/
def ShardedTensor.payload_bytes (st : ShardedTensor) : Nat :=
  match st.payload with
  | none => 0
  | some p => p.numel * p.dtype.itemsize

/-- Modelled from the spec: adding a tensor records its identity with the byte
size of its current payload (overwriting any stale entry for that identity). -/
def ModelDataTracer.add_tensor (m : ModelDataTracer) (st : ShardedTensor) : ModelDataTracer :=
  ⟨m.entries.filter (fun e => e.1 ≠ st.id) ++ [(st.id, st.payload_bytes)]⟩

/-- The tracked byte total. -/
def ModelDataTracer.total (m : ModelDataTracer) : Nat := (m.entries.map Prod.snd).sum

/-! ## Chunk-based shard strategy (`TensorShardStrategy`)

`tensor_shard_strategy.py` is not among the given sources (only its callers
are), so its two operations are modelled from the spec. -/

/-- Modelled from the spec: `TensorShardStrategy`'s shard of one tensor
(spec §4.2 steps 1-2: take this rank's chunk of the flattened payload via
`get_shard`, cloned, as the new payload; set `is_sharded`), with the
delete-before-replacement / re-add pairing of spec §3. -/
def chunk_shard_one (world_size rank : Nat) (m : ModelDataTracer) (st : ShardedTensor) :
    ModelDataTracer × ShardedTensor :=
  let p := st.payloadD
  let shard := (get_shard p.data rank world_size).1
  let st1 := { st with
    payload := some { shape := [shard.length], dtype := p.dtype, device := p.device,
                      data := shard }
    is_sharded := true }
  ((m.delete_tensor st).add_tensor st1, st1)

/-- Modelled from the spec: `TensorShardStrategy`'s gather of one tensor
(spec §4.2: skip unsharded tensors; all-gather each rank's chunk, concatenate
in rank order, truncate to `origin_numel`, reshape to `origin_shape`, clear
`is_sharded`), with the §3 tracer pairing.  `peerChunk i` is the chunk the
all-gather delivers from rank `i`; this rank's slot holds the local payload. -/
def chunk_gather_one (world_size rank : Nat) (peerChunk : Nat → List Int)
    (m : ModelDataTracer) (st : ShardedTensor) : ModelDataTracer × ShardedTensor :=
  if st.is_sharded = false then (m, st)
  else
    let p := st.payloadD
    let gathered := ((List.range world_size).map
        (fun i => if i = rank then p.data else peerChunk i)).flatten
    let st1 := { st with
      payload := some { shape := st.origin_shape, dtype := p.dtype, device := p.device,
                        data := gathered.take st.origin_numel }
      is_sharded := false }
    ((m.delete_tensor st).add_tensor st1, st1)

/-! ## Bucket shard strategy (`bucket_tensor_shard_strategy.py`)

`BucketTensorShardStrategy.gather` is modelled rank-locally: `recvData i` is
the data the collective `dist.all_gather` writes into the buffer allocated
for rank `i` (this rank's own slot keeps its locally flattened buffer). -/

/-- Line 24: `tensor_list = [t for t in tensor_list if t.is_sharded]`. -/
def bucketFiltered (l : List ShardedTensor) : List ShardedTensor :=
  l.filter (fun t => t.is_sharded)

/-- Line 30: `tensor_numels = [t.payload.numel() for t in tensor_list]`. -/
def bucketNumels (l : List ShardedTensor) : List Nat :=
  (bucketFiltered l).map (fun t => t.payloadD.numel)

/-- Line 36: `flatten([t.payload for t in tensor_list]).cuda(get_current_device())`:
the local chunks concatenated on the current CUDA device, keeping the
payloads' dtype. -/
def bucketOwnBuffer (cur_device : Device) (l : List ShardedTensor) : Tensor :=
  { shape := [(bucketNumels l).sum]
    dtype := ((bucketFiltered l).headD default).payloadD.dtype
    device := cur_device
    data := ((bucketFiltered l).map (fun t => t.payloadD.data)).flatten }

/-- Lines 34-45: the `buffer_list` after the in-place `dist.all_gather` and the
`.to(target_device)` move.  Non-local slots were allocated by
`torch.zeros(buffer_size, dtype=dtype, device=get_current_device())` with
`dtype = tensor_list[0].dtype` (the first still-sharded tensor), then filled
by the collective; `target_device = tensor_list[0].device`. -/
def bucketBufferList (world_size rank : Nat) (cur_device : Device)
    (recvData : Nat → List Int) (l : List ShardedTensor) : List Tensor :=
  let first := (bucketFiltered l).headD default
  let target_device := first.payloadD.device
  let buffer_size := (bucketNumels l).sum
  ((List.range world_size).map (fun i =>
      if i = rank then bucketOwnBuffer cur_device l
      else { shape := [buffer_size], dtype := first.dtype, device := cur_device,
             data := recvData i })).map
    (fun b => { b with device := target_device })

/-- Lines 46-52 for the `j`-th still-sharded tensor: slice
`buffer[offset:offset + tensor_numels[j]]` out of every rank's buffer,
concatenate across ranks, truncate to `origin_numel`, view as `origin_shape`,
install as the new payload, clear `is_sharded`. -/
def bucketUpd (world_size rank : Nat) (cur_device : Device)
    (recvData : Nat → List Int) (l : List ShardedTensor)
    (j : Nat) (t : ShardedTensor) : ShardedTensor :=
  let numels := bucketNumels l
  let offset := (numels.take j).sum
  let n := numels.getD j 0
  let bufs := bucketBufferList world_size rank cur_device recvData l
  let pieces := bufs.map (fun b => (b.data.drop offset).take n)
  { t with
    payload := some { shape := t.origin_shape
                      dtype := (bufs.headD default).dtype
                      device := (bufs.headD default).device
                      data := (pieces.flatten).take t.origin_numel }
    is_sharded := false }

/-- Apply `upd` to the still-sharded tensors of a list (counting them with
`j`), leaving unsharded tensors untouched: the final states of the caller's
tensor objects after the in-place loop of lines 47-52. -/
def replaceSharded (upd : Nat → ShardedTensor → ShardedTensor) :
    Nat → List ShardedTensor → List ShardedTensor
  | _, [] => []
  | j, t :: ts =>
    if t.is_sharded then upd j t :: replaceSharded upd (j + 1) ts
    else t :: replaceSharded upd j ts

/-- `BucketTensorShardStrategy.gather` (lines 20-55): delete every listed
tensor from the tracer, drop unsharded tensors, return early when nothing is
left; otherwise rebuild every still-sharded tensor from the all-gathered
buffers and re-register exactly those tensors.  Returns the tracer and the
final states of all tensors of the original list. -/
def bucket_gather (world_size rank : Nat) (cur_device : Device)
    (recvData : Nat → List Int) (m0 : ModelDataTracer)
    (tensor_list : List ShardedTensor) : ModelDataTracer × List ShardedTensor :=
  let m1 := tensor_list.foldl ModelDataTracer.delete_tensor m0
  if bucketFiltered tensor_list = [] then (m1, tensor_list)
  else
    let upd := bucketUpd world_size rank cur_device recvData tensor_list
    let m2 := (replaceSharded upd 0 (bucketFiltered tensor_list)).foldl
        ModelDataTracer.add_tensor m1
    (m2, replaceSharded upd 0 tensor_list)

theorem replaceSharded_length (upd : Nat → ShardedTensor → ShardedTensor)
    (n : Nat) (l : List ShardedTensor) :
    (replaceSharded upd n l).length = l.length := by
  induction l generalizing n with
  | nil => rfl
  | cons t ts ih =>
    rw [replaceSharded]
    split
    · simp [ih]
    · simp [ih]

/-- Unsharded tensors pass through `replaceSharded` untouched. -/
theorem replaceSharded_getD_unsharded (upd : Nat → ShardedTensor → ShardedTensor)
    (n j : Nat) (l : List ShardedTensor) (hj : j < l.length)
    (h : (l.getD j default).is_sharded = false) :
    (replaceSharded upd n l).getD j default = l.getD j default := by
  induction l generalizing n j with
  | nil => simp at hj
  | cons t ts ih =>
    rw [replaceSharded]
    cases j with
    | zero =>
      simp only [List.getD_cons_zero] at h ⊢
      split
      · rename_i hsh
        rw [h] at hsh
        simp at hsh
      · simp
    | succ k =>
      simp only [List.getD_cons_succ] at h ⊢
      have hk : k < ts.length := by
        simp only [List.length_cons] at hj
        omega
      split
      · simpa using ih (n + 1) k hk h
      · simpa using ih n k hk h

/-- The number of still-sharded tensors strictly before index `j`. -/
def shardedBefore (l : List ShardedTensor) (j : Nat) : Nat :=
  ((l.take j).filter (fun t => t.is_sharded)).length

/-- A still-sharded tensor at index `j` is rebuilt by `upd` at its position
within the filtered list. -/
theorem replaceSharded_getD_sharded (upd : Nat → ShardedTensor → ShardedTensor)
    (n j : Nat) (l : List ShardedTensor) (hj : j < l.length)
    (h : (l.getD j default).is_sharded = true) :
    (replaceSharded upd n l).getD j default
      = upd (n + shardedBefore l j) (l.getD j default) := by
  induction l generalizing n j with
  | nil => simp at hj
  | cons t ts ih =>
    rw [replaceSharded]
    cases j with
    | zero =>
      simp only [List.getD_cons_zero, shardedBefore, List.take_zero] at h ⊢
      split
      · simp
      · rename_i hsh
        rw [h] at hsh
        simp at hsh
    | succ k =>
      simp only [List.getD_cons_succ] at h ⊢
      have hk : k < ts.length := by
        simp only [List.length_cons] at hj
        omega
      split
      · rename_i hsh
        have h2 := ih (n + 1) k hk h
        rw [List.getD_cons_succ, h2]
        have h3 : shardedBefore (t :: ts) (k + 1) = shardedBefore ts k + 1 := by
          simp [shardedBefore, List.take_succ_cons, List.filter_cons, hsh]
        rw [h3]
        congr 1
        omega
      · rename_i hsh
        have hsh' : t.is_sharded = false := by
          cases hb : t.is_sharded
          · rfl
          · exact absurd hb hsh
        have h2 := ih n k hk h
        rw [List.getD_cons_succ, h2]
        have h3 : shardedBefore (t :: ts) (k + 1) = shardedBefore ts k := by
          simp [shardedBefore, List.take_succ_cons, List.filter_cons, hsh']
        rw [h3]

/-! ## Claim theorems -/

/-- The state of one tensor on rank `rank` after `shard`: construct the
ShardedTensor from `T`, then take this rank's padded chunk as the payload. -/
def shardedAt (oid : Nat) (T : Tensor) (world_size rank : Nat) : ShardedTensor :=
  (chunk_shard_one world_size rank ⟨[]⟩ (ShardedTensor.init oid T world_size rank)).2

theorem shardedAt_is_sharded (oid : Nat) (T : Tensor) (W r : Nat) :
    (shardedAt oid T W r).is_sharded = true := rfl

theorem shardedAt_payload_data (oid : Nat) (T : Tensor) (W r : Nat) :
    (shardedAt oid T W r).payloadD.data = (get_shard T.data r W).1 := rfl

theorem shardedAt_payload_numel (oid : Nat) (T : Tensor) (W r : Nat) (hW : 1 ≤ W) :
    (shardedAt oid T W r).payloadD.numel = shardLen T.data.length W := by
  show ((get_shard T.data r W).1).length = _
  exact get_shard_length T.data r W hW

/-- C1.  Round-trip exactness: sharding a tensor with `get_shard` on every
rank and gathering (concatenating the per-rank chunks in rank order,
truncating to `origin_numel`, reshaping to `origin_shape`) restores the
pre-shard payload bit-exactly and leaves `is_sharded` false — for every
origin size including 0 and every world size `W ≥ 1`. -/
theorem roundtrip_shard_gather_exact (T : Tensor) (W r oid : Nat) (dev : Device)
    (m : ModelDataTracer) (hW : 1 ≤ W) (hr : r < W) :
    ((bucket_gather W r dev (fun i => (get_shard T.data i W).1) m
        [shardedAt oid T W r]).2).map
      (fun t => (t.payloadD.data, t.payloadD.shape, t.is_sharded))
      = [(T.data, T.shape, false)] := by
  set st := shardedAt oid T W r with hst
  have hfil : bucketFiltered [st] = [st] := rfl
  have hnumels : bucketNumels [st] = [shardLen T.data.length W] := by
    simp [bucketNumels, hfil, shardedAt_payload_numel oid T W r hW]
  have hpieces :
      (bucketBufferList W r dev (fun i => (get_shard T.data i W).1) [st]).map
        (fun b => (b.data.drop 0).take (shardLen T.data.length W))
        = allShards T.data W := by
    rw [bucketBufferList]
    simp only [List.map_map]
    rw [allShards]
    apply List.map_congr_left
    intro i hi
    simp only [List.mem_range] at hi
    simp only [Function.comp_apply, List.drop_zero]
    by_cases hir : i = r
    · subst hir
      simp only [if_pos rfl]
      show ((bucketOwnBuffer dev [st]).data).take _ = _
      have hdata : (bucketOwnBuffer dev [st]).data = (get_shard T.data i W).1 := by
        simp [bucketOwnBuffer, hfil, hst, shardedAt_payload_data]
      rw [hdata]
      exact List.take_of_length_le (by rw [get_shard_length T.data i W hW])
    · simp only [if_neg hir]
      show ((get_shard T.data i W).1).take _ = _
      exact List.take_of_length_le (by rw [get_shard_length T.data i W hW])
  have hupd : bucketUpd W r dev (fun i => (get_shard T.data i W).1) [st] 0 st
      = { st with
            payload := some
              { shape := st.origin_shape
                dtype := ((bucketBufferList W r dev (fun i => (get_shard T.data i W).1)
                    [st]).headD default).dtype
                device := ((bucketBufferList W r dev (fun i => (get_shard T.data i W).1)
                    [st]).headD default).device
                data := T.data }
            is_sharded := false } := by
    rw [bucketUpd]
    simp only [hnumels, List.take_zero, List.sum_nil, List.getD_cons_zero]
    rw [hpieces]
    have horig : st.origin_numel = T.data.length := rfl
    rw [horig, allShards_flatten_take T.data W hW]
  have hmain : bucket_gather W r dev (fun i => (get_shard T.data i W).1) m [st]
      = (((m.delete_tensor st).add_tensor
            (bucketUpd W r dev (fun i => (get_shard T.data i W).1) [st] 0 st)),
         [bucketUpd W r dev (fun i => (get_shard T.data i W).1) [st] 0 st]) := by
    rw [bucket_gather]
    rw [if_neg (by rw [hfil]; exact List.cons_ne_nil st [])]
    rw [hfil]
    rfl
  rw [hmain, hupd]
  simp [ShardedTensor.payloadD]
  rfl

/-- C1 witness: concrete instances at `N = 0` and `N = 5`, `W = 2`. -/
theorem roundtrip_shard_gather_exact_witness :
    ((bucket_gather 2 1 Device.cpu (fun i => (get_shard [] i 2).1) ⟨[]⟩
        [shardedAt 7 ⟨[0], .f32, .cpu, []⟩ 2 1]).2).map
      (fun t => (t.payloadD.data, t.payloadD.shape, t.is_sharded))
      = [(([] : List Int), [0], false)] ∧
    ((bucket_gather 2 1 Device.cpu (fun i => (get_shard [3, 1, 4, 1, 5] i 2).1) ⟨[]⟩
        [shardedAt 7 ⟨[5], .f32, .cpu, [3, 1, 4, 1, 5]⟩ 2 1]).2).map
      (fun t => (t.payloadD.data, t.payloadD.shape, t.is_sharded))
      = [(([3, 1, 4, 1, 5] : List Int), [5], false)] :=
  ⟨roundtrip_shard_gather_exact ⟨[0], .f32, .cpu, []⟩ 2 1 7 Device.cpu ⟨[]⟩
      (by decide) (by decide),
   roundtrip_shard_gather_exact ⟨[5], .f32, .cpu, [3, 1, 4, 1, 5]⟩ 2 1 7 Device.cpu ⟨[]⟩
      (by decide) (by decide)⟩

/-- C2.  Chunking arithmetic: for `N > 0` and any rank `r < W`, the padded
shard has exactly `ceil(N / W) = (N + W - 1) / W` elements, and the per-rank
padding counts sum to `ceil(N / W) * W - N`. -/
theorem get_shard_chunk_arithmetic (d : List Int) (W r : Nat)
    (hW : 1 ≤ W) (hr : r < W) (hN : 0 < d.length) :
    ((get_shard d r W).1).length = (d.length + W - 1) / W ∧
    ((List.range W).map (fun i => (get_shard d i W).2)).sum
      = (d.length + W - 1) / W * W - d.length := by
  have hsl : shardLen d.length W = (d.length + W - 1) / W := by
    rw [shardLen, if_neg (by omega)]
  exact ⟨by rw [get_shard_length d r W hW, hsl],
    by rw [get_shard_pad_sum d W hW, hsl]⟩

/-- C2 witness: `N = 10`, `W = 4` gives shard length `3` on rank 2 and total
padding `2`. -/
theorem get_shard_chunk_arithmetic_witness :
    ((get_shard [0, 1, 2, 3, 4, 5, 6, 7, 8, 9] 2 4).1).length = 3 ∧
    ((List.range 4).map
        (fun i => (get_shard [0, 1, 2, 3, 4, 5, 6, 7, 8, 9] i 4).2)).sum = 2 := by
  have h := get_shard_chunk_arithmetic [0, 1, 2, 3, 4, 5, 6, 7, 8, 9] 4 2
    (by decide) (by decide) (by decide)
  exact ⟨h.1.trans (by norm_num), h.2.trans (by norm_num)⟩

/-- C8.  Idempotent gather: an already-unsharded tensor contained in a
`BucketTensorShardStrategy.gather` call is left completely untouched — its
`is_sharded` flag stays false and its payload is unchanged. -/
theorem bucket_gather_noop_on_unsharded (W r : Nat) (dev : Device)
    (recv : Nat → List Int) (m : ModelDataTracer) (l : List ShardedTensor)
    (j : Nat) (hj : j < l.length)
    (h : (l.getD j default).is_sharded = false) :
    ((bucket_gather W r dev recv m l).2).getD j default = l.getD j default := by
  rw [bucket_gather]
  split
  · rfl
  · exact replaceSharded_getD_unsharded _ 0 j l hj h

/-- C8 witness: a concrete unsharded tensor rides through a gather call
unchanged. -/
theorem bucket_gather_noop_on_unsharded_witness :
    ((bucket_gather 2 0 Device.cpu (fun i => [])
        ⟨[]⟩
        [⟨5, some ⟨[2], .f32, .cpu, [8, 9]⟩, 2, 0, false, [2], 2, .f32⟩,
         ⟨6, some ⟨[1], .f32, .cpu, [4]⟩, 2, 0, true, [1], 1, .f32⟩]).2).getD 0 default
      = ⟨5, some ⟨[2], .f32, .cpu, [8, 9]⟩, 2, 0, false, [2], 2, .f32⟩ :=
  bucket_gather_noop_on_unsharded 2 0 Device.cpu (fun i => []) ⟨[]⟩
    [⟨5, some ⟨[2], .f32, .cpu, [8, 9]⟩, 2, 0, false, [2], 2, .f32⟩,
     ⟨6, some ⟨[1], .f32, .cpu, [4]⟩, 2, 0, true, [1], 1, .f32⟩]
    0 (by decide) (by decide)

/-- A mutation step on a `ShardedTensor`: the operations the claim quantifies
over (`reset_payload`, `copy_payload`, `is_sharded` assignment). -/
inductive STOp where
  | reset (t : Option Tensor)
  | copy (t : Tensor)
  | set_sharded (b : Bool)

/-- Run one operation.  A failing `copy_payload` raises before mutating, so
the state is unchanged in that case. -/
def applyOp (st : ShardedTensor) : STOp → ShardedTensor
  | .reset t => st.reset_payload t
  | .copy t =>
    match st.copy_payload t with
    | .ok st' => st'
    | .error _ => st
  | .set_sharded b => { st with is_sharded := b }

theorem copy_payload_ok_fields (st : ShardedTensor) (t : Tensor) (st' : ShardedTensor)
    (h : st.copy_payload t = .ok st') :
    st'.origin_shape = st.origin_shape ∧ st'.origin_numel = st.origin_numel ∧
    st'.origin_dtype = st.origin_dtype ∧ st'.world_size = st.world_size ∧
    st'.local_rank = st.local_rank := by
  rw [ShardedTensor.copy_payload] at h
  split at h
  · simp at h
  · split at h
    · cases h
      exact ⟨rfl, rfl, rfl, rfl, rfl⟩
    · split at h
      · cases h
        exact ⟨rfl, rfl, rfl, rfl, rfl⟩
      · simp at h

theorem applyOp_preserves_metadata (st : ShardedTensor) (op : STOp) :
    (applyOp st op).origin_shape = st.origin_shape ∧
    (applyOp st op).origin_numel = st.origin_numel ∧
    (applyOp st op).origin_dtype = st.origin_dtype ∧
    (applyOp st op).world_size = st.world_size ∧
    (applyOp st op).local_rank = st.local_rank := by
  cases op with
  | reset t => exact ⟨rfl, rfl, rfl, rfl, rfl⟩
  | set_sharded b => exact ⟨rfl, rfl, rfl, rfl, rfl⟩
  | copy t =>
    cases hres : st.copy_payload t with
    | ok st' =>
      have hf := copy_payload_ok_fields st t st' hres
      simp only [applyOp, hres]
      exact hf
    | error e =>
      simp only [applyOp, hres]
      simp

/-- C9.  Origin metadata immutability: construction snapshots
`origin_shape` / `origin_numel` / `origin_dtype` / `world_size` / `rank` and
clears `is_sharded`; no sequence of `reset_payload`, `copy_payload` and
`is_sharded` assignments can change the five snapshot fields. -/
theorem origin_metadata_immutable (T : Tensor) (W r oid : Nat) (ops : List STOp) :
    (ops.foldl applyOp (ShardedTensor.init oid T W r)).origin_shape = T.shape ∧
    (ops.foldl applyOp (ShardedTensor.init oid T W r)).origin_numel = T.numel ∧
    (ops.foldl applyOp (ShardedTensor.init oid T W r)).origin_dtype = T.dtype ∧
    (ops.foldl applyOp (ShardedTensor.init oid T W r)).world_size = W ∧
    (ops.foldl applyOp (ShardedTensor.init oid T W r)).local_rank = r ∧
    (ShardedTensor.init oid T W r).is_sharded = false := by
  have main : ∀ (ops : List STOp) (st : ShardedTensor),
      (ops.foldl applyOp st).origin_shape = st.origin_shape ∧
      (ops.foldl applyOp st).origin_numel = st.origin_numel ∧
      (ops.foldl applyOp st).origin_dtype = st.origin_dtype ∧
      (ops.foldl applyOp st).world_size = st.world_size ∧
      (ops.foldl applyOp st).local_rank = st.local_rank := by
    intro ops
    induction ops with
    | nil => intro st; exact ⟨rfl, rfl, rfl, rfl, rfl⟩
    | cons op rest ih =>
      intro st
      have h1 := applyOp_preserves_metadata st op
      have h2 := ih (applyOp st op)
      simp only [List.foldl_cons]
      exact ⟨h2.1.trans h1.1, h2.2.1.trans h1.2.1, h2.2.2.1.trans h1.2.2.1,
        h2.2.2.2.1.trans h1.2.2.2.1, h2.2.2.2.2.trans h1.2.2.2.2⟩
  have h := main ops (ShardedTensor.init oid T W r)
  exact ⟨h.1, h.2.1, h.2.2.1, h.2.2.2.1, h.2.2.2.2, rfl⟩

/-- C6 counterexample: `copy_payload` with a 1-element source into a
2-element payload does NOT fail — torch `copy_` broadcasts it — so "every
differing element count fails" is false on the code. -/
theorem copy_payload_broadcast_counterexample :
    (ShardedTensor.copy_payload
        ⟨0, some ⟨[2], .f32, .cpu, [5, 6]⟩, 1, 0, false, [2], 2, .f32⟩
        ⟨[1], .f32, .cpu, [9]⟩)
      = .ok ⟨0, some ⟨[2], .f32, .cpu, [9, 9]⟩, 1, 0, false, [2], 2, .f32⟩ ∧
    (1 : Nat) ≠ 2 := by
  constructor
  · rfl
  · decide

/-- C6 (amended).  `copy_payload` with equal element counts copies the
source's values into the existing payload in place (shape, dtype and device
of the payload are kept); a differing count fails with a size-mismatch error
reporting both counts — except for a one-element source, which torch
broadcasts across the payload. -/
theorem copy_payload_spec (st : ShardedTensor) (p src : Tensor)
    (hp : st.payload = some p) :
    (src.numel = p.numel →
      st.copy_payload src = .ok { st with payload := some { p with data := src.data } }) ∧
    (src.numel ≠ p.numel → src.numel ≠ 1 →
      st.copy_payload src = .error (.size_mismatch p.numel src.numel)) ∧
    (src.numel ≠ p.numel → src.numel = 1 →
      st.copy_payload src
        = .ok { st with payload := some { p with data := List.replicate p.numel (src.data.headD 0) } }) := by
  refine ⟨fun h1 => ?_, fun h1 h2 => ?_, fun h1 h2 => ?_⟩
  · rw [ShardedTensor.copy_payload, hp]
    simp only [if_pos h1]
  · rw [ShardedTensor.copy_payload, hp]
    simp only [if_neg h1, if_neg h2]
  · rw [ShardedTensor.copy_payload, hp]
    simp only [if_neg h1, if_pos h2]

/-- C6 witness: the mismatch branch at concrete sizes 2 (payload) vs 3
(source), reporting both counts. -/
theorem copy_payload_spec_witness :
    (ShardedTensor.copy_payload
        ⟨0, some ⟨[2], .f32, .cpu, [5, 6]⟩, 1, 0, false, [2], 2, .f32⟩
        ⟨[3], .f32, .cpu, [1, 2, 3]⟩)
      = .error (.size_mismatch 2 3) :=
  (copy_payload_spec
      ⟨0, some ⟨[2], .f32, .cpu, [5, 6]⟩, 1, 0, false, [2], 2, .f32⟩
      ⟨[2], .f32, .cpu, [5, 6]⟩ ⟨[3], .f32, .cpu, [1, 2, 3]⟩ rfl).2.1
    (by decide) (by decide)

theorem bucketBufferList_headD_device (W r : Nat) (dev : Device)
    (recv : Nat → List Int) (l : List ShardedTensor) (hW : 1 ≤ W) :
    ((bucketBufferList W r dev recv l).headD default).device
      = ((bucketFiltered l).headD default).payloadD.device := by
  obtain ⟨w, rfl⟩ : ∃ w, W = w + 1 := ⟨W - 1, by omega⟩
  rw [bucketBufferList]
  simp [List.range_succ_eq_map]

/-- C10.  Bucket gather homogeneity: the first still-sharded tensor of the
list governs the whole batch — receive buffers for every non-local rank are
allocated with its dtype, and every rebuilt payload is installed on its
(pre-call) device, regardless of the other tensors' own devices or dtypes. -/
theorem bucket_gather_first_tensor_governs (W r : Nat) (dev : Device)
    (recv : Nat → List Int) (m : ModelDataTracer) (l : List ShardedTensor)
    (hW : 1 ≤ W) (hne : bucketFiltered l ≠ [])
    (j : Nat) (hj : j < l.length)
    (hsh : (l.getD j default).is_sharded = true) :
    (∀ i, i < W → i ≠ r →
      ((bucketBufferList W r dev recv l).getD i default).dtype
        = ((bucketFiltered l).headD default).origin_dtype) ∧
    (((bucket_gather W r dev recv m l).2).getD j default).payloadD.device
      = ((bucketFiltered l).headD default).payloadD.device := by
  constructor
  · intro i hi hir
    rw [bucketBufferList]
    rw [List.getD_eq_getElem _ _ (by simpa using hi)]
    simp only [List.getElem_map, List.getElem_range]
    rw [if_neg hir]
    simp [ShardedTensor.dtype]
  · rw [bucket_gather]
    rw [if_neg hne]
    show ((replaceSharded (bucketUpd W r dev recv l) 0 l).getD j
        default).payloadD.device = _
    rw [replaceSharded_getD_sharded _ 0 j l hj hsh]
    show ((bucketBufferList W r dev recv l).headD default).device = _
    exact bucketBufferList_headD_device W r dev recv l hW

/-- C10 witness: a batch of two sharded tensors with different dtypes and
devices; the second tensor's rebuilt payload lands on the first tensor's
device, and the rank-1 receive buffer carries the first tensor's dtype. -/
theorem bucket_gather_first_tensor_governs_witness :
    ((bucketBufferList 2 0 (Device.cuda 0) (fun k => [0, 0, 0, 0])
        [⟨1, some ⟨[2], .f16, .cpu, [1, 2]⟩, 2, 0, true, [3], 3, .f16⟩,
         ⟨2, some ⟨[2], .f64, .cuda 1, [5, 6]⟩, 2, 0, true, [4], 4, .f64⟩]).getD 1
        default).dtype = DType.f16 ∧
    (((bucket_gather 2 0 (Device.cuda 0) (fun k => [0, 0, 0, 0]) ⟨[]⟩
        [⟨1, some ⟨[2], .f16, .cpu, [1, 2]⟩, 2, 0, true, [3], 3, .f16⟩,
         ⟨2, some ⟨[2], .f64, .cuda 1, [5, 6]⟩, 2, 0, true, [4], 4, .f64⟩]).2).getD 1
        default).payloadD.device = Device.cpu := by
  have h := bucket_gather_first_tensor_governs 2 0 (Device.cuda 0)
    (fun k => [0, 0, 0, 0]) ⟨[]⟩
    [⟨1, some ⟨[2], .f16, .cpu, [1, 2]⟩, 2, 0, true, [3], 3, .f16⟩,
     ⟨2, some ⟨[2], .f64, .cuda 1, [5, 6]⟩, 2, 0, true, [4], 4, .f64⟩]
    (by decide) (by decide) 1 (by decide) (by decide)
  exact ⟨(h.1 1 (by decide) (by decide)).trans (by decide), h.2.trans (by decide)⟩

/-! ## The SPMD gather scenario shared by the strategy-equivalence and
memory-closure claims: a list of origin tensors (with identities), sharded
consistently on every rank; the collective delivers, for rank `i`, the
concatenation of rank `i`'s chunks of every listed tensor in list order. -/

/-- All listed tensors in their post-`shard` state on rank `r`. -/
def shardedList (os : List (Nat × Tensor)) (W r : Nat) : List ShardedTensor :=
  os.map (fun o => shardedAt o.1 o.2 W r)

/-- What the all-gather delivers from rank `i`: rank `i`'s local chunks of
every listed tensor, flattened in list order (every rank runs the same code
on identically ordered lists). -/
def bucketRecv (os : List (Nat × Tensor)) (W : Nat) : Nat → List Int :=
  fun i => (os.map (fun o => (get_shard o.2.data i W).1)).flatten

theorem shardedAt_origin_shape (oid : Nat) (T : Tensor) (W r : Nat) :
    (shardedAt oid T W r).origin_shape = T.shape := rfl

theorem shardedAt_origin_numel (oid : Nat) (T : Tensor) (W r : Nat) :
    (shardedAt oid T W r).origin_numel = T.data.length := rfl

theorem shardedAt_id (oid : Nat) (T : Tensor) (W r : Nat) :
    (shardedAt oid T W r).id = oid := rfl

theorem getD_map_of_lt {α β : Type} [Inhabited α] [Inhabited β]
    (l : List α) (f : α → β) (k : Nat) (hk : k < l.length) :
    (l.map f).getD k default = f (l.getD k default) := by
  rw [List.getD_eq_getElem _ _ (by simpa using hk), List.getD_eq_getElem _ _ hk,
    List.getElem_map]

theorem shardedList_all_sharded (os : List (Nat × Tensor)) (W r : Nat) :
    ∀ t ∈ shardedList os W r, t.is_sharded = true := by
  intro t ht
  rcases List.mem_map.mp ht with ⟨o, _, rfl⟩
  rfl

theorem shardedList_filter (os : List (Nat × Tensor)) (W r : Nat) :
    bucketFiltered (shardedList os W r) = shardedList os W r := by
  rw [bucketFiltered, List.filter_eq_self]
  intro t ht
  simp [shardedList_all_sharded os W r t ht]

theorem shardedBefore_of_all (l : List ShardedTensor)
    (hall : ∀ t ∈ l, t.is_sharded = true) (j : Nat) (hj : j ≤ l.length) :
    shardedBefore l j = j := by
  rw [shardedBefore]
  rw [List.filter_eq_self.mpr (fun t ht => by
    simp [hall t (List.mem_of_mem_take ht)])]
  simp only [List.length_take]
  omega

theorem shardedList_numels (os : List (Nat × Tensor)) (W r : Nat) (hW : 1 ≤ W) :
    bucketNumels (shardedList os W r)
      = os.map (fun o => shardLen o.2.data.length W) := by
  rw [bucketNumels, shardedList_filter, shardedList, List.map_map]
  apply List.map_congr_left
  intro o _
  simp only [Function.comp_apply]
  exact shardedAt_payload_numel o.1 o.2 W r hW

/-- Slicing a concatenation at the accumulated offset of its `j`-th piece
recovers that piece, when the piece lengths are as tabulated. -/
theorem flatten_drop_take (L : List (List Int)) (ns : List Nat) (j : Nat)
    (hlen : ns.length = L.length)
    (hns : ∀ k, k < L.length → (L.getD k []).length = ns.getD k 0)
    (hj : j < L.length) :
    (L.flatten.drop ((ns.take j).sum)).take (ns.getD j 0) = L.getD j [] := by
  induction L generalizing ns j with
  | nil => simp at hj
  | cons x L' ih =>
    cases ns with
    | nil => simp at hlen
    | cons n ns' =>
      have hx : x.length = n := by simpa using hns 0 (by simp)
      cases j with
      | zero =>
        simp only [List.take_zero, List.sum_nil, List.drop_zero, List.getD_cons_zero,
          List.flatten_cons]
        rw [← hx]
        exact List.take_left x L'.flatten
      | succ k =>
        have hk : k < L'.length := by simpa using hj
        simp only [List.getD_cons_succ, List.take_succ_cons, List.sum_cons,
          List.flatten_cons]
        rw [List.drop_append_eq_append_drop]
        rw [List.drop_eq_nil_of_le (by omega)]
        simp only [List.nil_append]
        have harith : n + (ns'.take k).sum - x.length = (ns'.take k).sum := by omega
        rw [harith]
        exact ih ns' k (by simpa using hlen)
          (fun k' hk' => by simpa using hns (k' + 1) (by simpa using hk')) hk

theorem bucketBufferList_getD_data (os : List (Nat × Tensor)) (W r : Nat)
    (dev : Device) (hW : 1 ≤ W) (i : Nat) (hi : i < W) :
    ((bucketBufferList W r dev (bucketRecv os W) (shardedList os W r)).getD i
        default).data
      = (os.map (fun o => (get_shard o.2.data i W).1)).flatten := by
  rw [bucketBufferList]
  rw [List.getD_eq_getElem _ _ (by simpa using hi)]
  simp only [List.getElem_map, List.getElem_range]
  by_cases hir : i = r
  · subst hir
    rw [if_pos rfl]
    show (bucketOwnBuffer dev (shardedList os W i)).data = _
    rw [bucketOwnBuffer]
    show ((bucketFiltered (shardedList os W i)).map (fun t => t.payloadD.data)).flatten = _
    rw [shardedList_filter, shardedList, List.map_map]
    rfl
  · rw [if_neg hir]
    rfl

theorem bucketBufferList_length (W r : Nat) (dev : Device)
    (recv : Nat → List Int) (l : List ShardedTensor) :
    (bucketBufferList W r dev recv l).length = W := by
  simp [bucketBufferList]

/-- Slicing every all-gathered buffer at the `j`-th tensor's offset yields
exactly that tensor's per-rank chunks, in rank order. -/
theorem bucketPieces_eval (os : List (Nat × Tensor)) (W r : Nat) (dev : Device)
    (hW : 1 ≤ W) (j : Nat) (hj : j < os.length) :
    (bucketBufferList W r dev (bucketRecv os W) (shardedList os W r)).map
      (fun b => (b.data.drop (((bucketNumels (shardedList os W r)).take j).sum)).take
        ((bucketNumels (shardedList os W r)).getD j 0))
      = allShards (os.getD j default).2.data W := by
  have hns : ∀ k, k < os.length →
      (bucketNumels (shardedList os W r)).getD k 0
        = shardLen (os.getD k default).2.data.length W := by
    intro k hk
    rw [shardedList_numels os W r hW]
    rw [List.getD_eq_getElem _ _ (by simpa using hk), List.getD_eq_getElem _ _ hk,
      List.getElem_map]
  apply List.ext_getElem
  · rw [List.length_map, bucketBufferList_length, allShards, List.length_map,
      List.length_range]
  · intro i hi1 hi2
    have hiW : i < W := by
      rw [List.length_map, bucketBufferList_length] at hi1
      exact hi1
    simp only [List.getElem_map]
    have hgd := bucketBufferList_getD_data os W r dev hW i hiW
    rw [List.getD_eq_getElem _ _ (by rw [bucketBufferList_length]; exact hiW)] at hgd
    rw [hgd]
    simp only [allShards, List.getElem_map, List.getElem_range]
    have hslice := flatten_drop_take
      (os.map (fun o => (get_shard o.2.data i W).1))
      (bucketNumels (shardedList os W r)) j
      (by rw [shardedList_numels os W r hW]; simp)
      (by
        intro k hk
        have hk' : k < os.length := by simpa using hk
        rw [hns k hk']
        rw [List.getD_eq_getElem _ _ hk]
        simp only [List.getElem_map]
        have := get_shard_length (os[k].2.data) i W hW
        rw [this]
        congr 2
        rw [List.getD_eq_getElem _ _ hk'])
      (by simpa using hj)
    rw [hslice]
    rw [List.getD_eq_getElem _ _ (by simpa using hj)]
    simp only [List.getElem_map]
    congr 2
    rw [List.getD_eq_getElem _ _ hj]

/-- Evaluation of the per-tensor rebuild step of the bucket gather in the
consistent SPMD scenario. -/
theorem bucketUpd_eval (os : List (Nat × Tensor)) (W r : Nat) (dev : Device)
    (hW : 1 ≤ W) (j : Nat) (hj : j < os.length) (t : ShardedTensor) :
    bucketUpd W r dev (bucketRecv os W) (shardedList os W r) j t
      = { t with
          payload := some
            { shape := t.origin_shape
              dtype := ((bucketBufferList W r dev (bucketRecv os W)
                  (shardedList os W r)).headD default).dtype
              device := ((bucketBufferList W r dev (bucketRecv os W)
                  (shardedList os W r)).headD default).device
              data := ((allShards (os.getD j default).2.data W).flatten).take
                  t.origin_numel }
          is_sharded := false } := by
  simp only [bucketUpd]
  rw [bucketPieces_eval os W r dev hW j hj]

/-- The rebuilt state of a still-sharded tensor under the (spec-modelled)
per-tensor chunk gather. -/
theorem chunk_gather_one_sharded (W r : Nat) (pc : Nat → List Int)
    (m : ModelDataTracer) (st : ShardedTensor) (h : st.is_sharded = true) :
    (chunk_gather_one W r pc m st).2
      = { st with
          payload := some
            { shape := st.origin_shape
              dtype := st.payloadD.dtype
              device := st.payloadD.device
              data := (((List.range W).map
                  (fun i => if i = r then st.payloadD.data else pc i)).flatten).take
                st.origin_numel }
          is_sharded := false } := by
  rw [chunk_gather_one, if_neg (by simp [h])]

/-- C3.  Strategy equivalence: on identically ordered, consistently sharded
tensor lists, the bucket gather rebuilds every tensor with exactly the same
payload values, shape, and cleared `is_sharded` flag as the per-tensor chunk
gather applied to that tensor alone. -/
theorem bucket_gather_matches_chunk_gather (os : List (Nat × Tensor)) (W r : Nat)
    (dev : Device) (m m' : ModelDataTracer) (hW : 1 ≤ W) (hr : r < W)
    (j : Nat) (hj : j < os.length) :
    ((((bucket_gather W r dev (bucketRecv os W) m (shardedList os W r)).2).getD j
          default).payloadD.data
        = (((chunk_gather_one W r
            (fun i => (get_shard (os.getD j default).2.data i W).1) m'
            ((shardedList os W r).getD j default)).2).payloadD.data)) ∧
    ((((bucket_gather W r dev (bucketRecv os W) m (shardedList os W r)).2).getD j
          default).payloadD.shape
        = (((chunk_gather_one W r
            (fun i => (get_shard (os.getD j default).2.data i W).1) m'
            ((shardedList os W r).getD j default)).2).payloadD.shape)) ∧
    ((((bucket_gather W r dev (bucketRecv os W) m (shardedList os W r)).2).getD j
          default).is_sharded = false) ∧
    (((chunk_gather_one W r
            (fun i => (get_shard (os.getD j default).2.data i W).1) m'
            ((shardedList os W r).getD j default)).2).is_sharded = false) := by
  have hlenS : (shardedList os W r).length = os.length := by
    rw [shardedList, List.length_map]
  have hstj : (shardedList os W r).getD j default
      = shardedAt (os.getD j default).1 (os.getD j default).2 W r := by
    rw [shardedList]
    exact getD_map_of_lt os _ j hj
  have hshj : ((shardedList os W r).getD j default).is_sharded = true := by
    rw [hstj]
    rfl
  have hne : bucketFiltered (shardedList os W r) ≠ [] := by
    rw [shardedList_filter]
    intro hnil
    have h0 := congrArg List.length hnil
    rw [hlenS] at h0
    simp only [List.length_nil] at h0
    omega
  -- the chunk-gather side evaluates to the origin data
  have hmap : (List.range W).map
      (fun i => if i = r then
          ((shardedList os W r).getD j default).payloadD.data
        else (get_shard (os.getD j default).2.data i W).1)
      = allShards (os.getD j default).2.data W := by
    rw [allShards]
    apply List.map_congr_left
    intro i _
    by_cases hir : i = r
    · subst hir
      rw [if_pos rfl, hstj]
      exact shardedAt_payload_data _ _ W i
    · rw [if_neg hir]
  have hcg := chunk_gather_one_sharded W r
    (fun i => (get_shard (os.getD j default).2.data i W).1) m'
    ((shardedList os W r).getD j default) hshj
  rw [hmap] at hcg
  have hcdata : (((chunk_gather_one W r
      (fun i => (get_shard (os.getD j default).2.data i W).1) m'
      ((shardedList os W r).getD j default)).2).payloadD.data)
      = (os.getD j default).2.data := by
    rw [hcg]
    show ((allShards (os.getD j default).2.data W).flatten).take
        ((shardedList os W r).getD j default).origin_numel = _
    rw [hstj, shardedAt_origin_numel]
    exact allShards_flatten_take (os.getD j default).2.data W hW
  have hcshape : (((chunk_gather_one W r
      (fun i => (get_shard (os.getD j default).2.data i W).1) m'
      ((shardedList os W r).getD j default)).2).payloadD.shape)
      = (os.getD j default).2.shape := by
    rw [hcg]
    show ((shardedList os W r).getD j default).origin_shape = _
    rw [hstj]
    rfl
  have hcflag : (((chunk_gather_one W r
      (fun i => (get_shard (os.getD j default).2.data i W).1) m'
      ((shardedList os W r).getD j default)).2).is_sharded = false) := by
    rw [hcg]
  -- the bucket side evaluates to the same values
  have hbj : (((bucket_gather W r dev (bucketRecv os W) m
      (shardedList os W r)).2).getD j default)
      = bucketUpd W r dev (bucketRecv os W) (shardedList os W r) j
          ((shardedList os W r).getD j default) := by
    rw [bucket_gather, if_neg hne]
    show ((replaceSharded (bucketUpd W r dev (bucketRecv os W) (shardedList os W r)) 0
        (shardedList os W r)).getD j default) = _
    rw [replaceSharded_getD_sharded _ 0 j (shardedList os W r)
      (by rw [hlenS]; exact hj) hshj]
    rw [shardedBefore_of_all (shardedList os W r)
      (shardedList_all_sharded os W r) j (by rw [hlenS]; omega)]
    rw [Nat.zero_add]
  have hbupd := bucketUpd_eval os W r dev hW j hj ((shardedList os W r).getD j default)
  have hbdata : (((bucket_gather W r dev (bucketRecv os W) m
      (shardedList os W r)).2).getD j default).payloadD.data
      = (os.getD j default).2.data := by
    rw [hbj, hbupd]
    show ((allShards (os.getD j default).2.data W).flatten).take
        ((shardedList os W r).getD j default).origin_numel = _
    rw [hstj, shardedAt_origin_numel]
    exact allShards_flatten_take (os.getD j default).2.data W hW
  have hbshape : (((bucket_gather W r dev (bucketRecv os W) m
      (shardedList os W r)).2).getD j default).payloadD.shape
      = (os.getD j default).2.shape := by
    rw [hbj, hbupd]
    show ((shardedList os W r).getD j default).origin_shape = _
    rw [hstj]
    rfl
  have hbflag : (((bucket_gather W r dev (bucketRecv os W) m
      (shardedList os W r)).2).getD j default).is_sharded = false := by
    rw [hbj, hbupd]
  exact ⟨hbdata.trans hcdata.symm, hbshape.trans hcshape.symm, hbflag, hcflag⟩

/-- C3 witness: two tensors of numel 5 and 7 at `W = 2` have local chunk
lengths 3 and 4 (`buffer_size = 7`), and bucket gather agrees with the
per-tensor chunk gather in either list order. -/
theorem bucket_gather_matches_chunk_gather_witness :
    bucketNumels (shardedList
        [(1, ⟨[5], .f32, .cpu, [1, 2, 3, 4, 5]⟩),
         (2, ⟨[7], .f32, .cpu, [6, 7, 8, 9, 10, 11, 12]⟩)] 2 0) = [3, 4] ∧
    (bucketNumels (shardedList
        [(1, ⟨[5], .f32, .cpu, [1, 2, 3, 4, 5]⟩),
         (2, ⟨[7], .f32, .cpu, [6, 7, 8, 9, 10, 11, 12]⟩)] 2 0)).sum = 7 ∧
    ((((bucket_gather 2 0 Device.cpu
        (bucketRecv [(1, ⟨[5], .f32, .cpu, [1, 2, 3, 4, 5]⟩),
          (2, ⟨[7], .f32, .cpu, [6, 7, 8, 9, 10, 11, 12]⟩)] 2) ⟨[]⟩
        (shardedList [(1, ⟨[5], .f32, .cpu, [1, 2, 3, 4, 5]⟩),
          (2, ⟨[7], .f32, .cpu, [6, 7, 8, 9, 10, 11, 12]⟩)] 2 0)).2).getD 0
          default).payloadD.data
      = (((chunk_gather_one 2 0
          (fun i => (get_shard ((([(1, (⟨[5], .f32, .cpu, [1, 2, 3, 4, 5]⟩ : Tensor)),
            (2, (⟨[7], .f32, .cpu, [6, 7, 8, 9, 10, 11, 12]⟩ : Tensor))] : List (Nat × Tensor)).getD 0
              default).2.data) i 2).1) ⟨[]⟩
          ((shardedList [(1, ⟨[5], .f32, .cpu, [1, 2, 3, 4, 5]⟩),
            (2, ⟨[7], .f32, .cpu, [6, 7, 8, 9, 10, 11, 12]⟩)] 2 0).getD 0
            default)).2).payloadD.data)) ∧
    ((((bucket_gather 2 0 Device.cpu
        (bucketRecv [(1, ⟨[5], .f32, .cpu, [1, 2, 3, 4, 5]⟩),
          (2, ⟨[7], .f32, .cpu, [6, 7, 8, 9, 10, 11, 12]⟩)] 2) ⟨[]⟩
        (shardedList [(1, ⟨[5], .f32, .cpu, [1, 2, 3, 4, 5]⟩),
          (2, ⟨[7], .f32, .cpu, [6, 7, 8, 9, 10, 11, 12]⟩)] 2 0)).2).getD 1
          default).payloadD.data
      = (((chunk_gather_one 2 0
          (fun i => (get_shard ((([(1, (⟨[5], .f32, .cpu, [1, 2, 3, 4, 5]⟩ : Tensor)),
            (2, (⟨[7], .f32, .cpu, [6, 7, 8, 9, 10, 11, 12]⟩ : Tensor))] : List (Nat × Tensor)).getD 1
              default).2.data) i 2).1) ⟨[]⟩
          ((shardedList [(1, ⟨[5], .f32, .cpu, [1, 2, 3, 4, 5]⟩),
            (2, ⟨[7], .f32, .cpu, [6, 7, 8, 9, 10, 11, 12]⟩)] 2 0).getD 1
            default)).2).payloadD.data)) ∧
    ((((bucket_gather 2 0 Device.cpu
        (bucketRecv [(2, ⟨[7], .f32, .cpu, [6, 7, 8, 9, 10, 11, 12]⟩),
          (1, ⟨[5], .f32, .cpu, [1, 2, 3, 4, 5]⟩)] 2) ⟨[]⟩
        (shardedList [(2, ⟨[7], .f32, .cpu, [6, 7, 8, 9, 10, 11, 12]⟩),
          (1, ⟨[5], .f32, .cpu, [1, 2, 3, 4, 5]⟩)] 2 0)).2).getD 1
          default).payloadD.data
      = (((chunk_gather_one 2 0
          (fun i => (get_shard ((([(2, (⟨[7], .f32, .cpu, [6, 7, 8, 9, 10, 11, 12]⟩ : Tensor)),
            (1, (⟨[5], .f32, .cpu, [1, 2, 3, 4, 5]⟩ : Tensor))] : List (Nat × Tensor)).getD 1
              default).2.data) i 2).1) ⟨[]⟩
          ((shardedList [(2, ⟨[7], .f32, .cpu, [6, 7, 8, 9, 10, 11, 12]⟩),
            (1, ⟨[5], .f32, .cpu, [1, 2, 3, 4, 5]⟩)] 2 0).getD 1
            default)).2).payloadD.data)) :=
  ⟨by decide, by decide,
   (bucket_gather_matches_chunk_gather
      [(1, (⟨[5], .f32, .cpu, [1, 2, 3, 4, 5]⟩ : Tensor)),
       (2, (⟨[7], .f32, .cpu, [6, 7, 8, 9, 10, 11, 12]⟩ : Tensor))] 2 0 Device.cpu
      ⟨[]⟩ ⟨[]⟩ (by decide) (by decide) 0 (by decide)).1,
   (bucket_gather_matches_chunk_gather
      [(1, (⟨[5], .f32, .cpu, [1, 2, 3, 4, 5]⟩ : Tensor)),
       (2, (⟨[7], .f32, .cpu, [6, 7, 8, 9, 10, 11, 12]⟩ : Tensor))] 2 0 Device.cpu
      ⟨[]⟩ ⟨[]⟩ (by decide) (by decide) 1 (by decide)).1,
   (bucket_gather_matches_chunk_gather
      [(2, (⟨[7], .f32, .cpu, [6, 7, 8, 9, 10, 11, 12]⟩ : Tensor)),
       (1, (⟨[5], .f32, .cpu, [1, 2, 3, 4, 5]⟩ : Tensor))] 2 0 Device.cpu
      ⟨[]⟩ ⟨[]⟩ (by decide) (by decide) 1 (by decide)).1⟩

/-! ## Tracer bookkeeping lemmas for the memory-closure claim -/

theorem add_tensor_entries_fresh (m : ModelDataTracer) (t : ShardedTensor)
    (hfresh : t.id ∉ m.entries.map Prod.fst) :
    (m.add_tensor t).entries = m.entries ++ [(t.id, t.payload_bytes)] := by
  rw [ModelDataTracer.add_tensor]
  have hf : m.entries.filter (fun e => e.1 ≠ t.id) = m.entries := by
    rw [List.filter_eq_self]
    intro e he
    simp only [ne_eq, decide_not, Bool.not_eq_eq_eq_not, Bool.not_true,
      decide_eq_false_iff_not]
    intro hid
    exact hfresh (List.mem_map.mpr ⟨e, he, hid⟩)
  rw [hf]

theorem add_fold_entries (l : List ShardedTensor) (m : ModelDataTracer)
    (hnd : (l.map ShardedTensor.id).Nodup)
    (hfresh : ∀ st ∈ l, st.id ∉ m.entries.map Prod.fst) :
    (l.foldl ModelDataTracer.add_tensor m).entries
      = m.entries ++ l.map (fun st => (st.id, st.payload_bytes)) := by
  induction l generalizing m with
  | nil => simp
  | cons t ts ih =>
    simp only [List.foldl_cons]
    have hstep := add_tensor_entries_fresh m t (hfresh t (List.mem_cons_self t ts))
    have hnd' : (ts.map ShardedTensor.id).Nodup := by
      simp only [List.map_cons, List.nodup_cons] at hnd
      exact hnd.2
    have hhd : t.id ∉ ts.map ShardedTensor.id := by
      simp only [List.map_cons, List.nodup_cons] at hnd
      exact hnd.1
    have hfresh' : ∀ st ∈ ts, st.id ∉ (m.add_tensor t).entries.map Prod.fst := by
      intro st hst
      rw [hstep]
      simp only [List.map_append, List.mem_append, List.map_cons, List.map_nil]
      rintro (h | h)
      · exact hfresh st (List.mem_cons_of_mem t hst) h
      · simp only [List.mem_singleton] at h
        exact hhd (h ▸ List.mem_map.mpr ⟨st, hst, rfl⟩)
    rw [ih (m.add_tensor t) hnd' hfresh', hstep]
    simp

theorem filter_ne_of_map_not_mem (acc : List (Nat × Nat)) (i : Nat)
    (h : i ∉ acc.map Prod.fst) :
    acc.filter (fun e => e.1 ≠ i) = acc := by
  rw [List.filter_eq_self]
  intro e he
  simp only [ne_eq, decide_not, Bool.not_eq_eq_eq_not, Bool.not_true,
    decide_eq_false_iff_not]
  intro hid
  exact h (List.mem_map.mpr ⟨e, he, hid⟩)

/-- Sharding a list of tracked tensors in sequence replaces each tensor's
tracer entry by its post-shard byte size (identities are preserved). -/
theorem shard_fold_entries (W r : Nat) (l : List ShardedTensor)
    (m : ModelDataTracer) (acc : List (Nat × Nat)) (g : ShardedTensor → Nat)
    (hnd : (l.map ShardedTensor.id).Nodup)
    (hfa : ∀ st ∈ l, st.id ∉ acc.map Prod.fst)
    (hm : m.entries = l.map (fun st => (st.id, g st)) ++ acc) :
    (l.foldl (fun m st => (chunk_shard_one W r m st).1) m).entries
      = acc ++ l.map (fun st => (st.id, ((chunk_shard_one W r ⟨[]⟩ st).2).payload_bytes)) := by
  induction l generalizing m acc with
  | nil => simpa using hm
  | cons t ts ih =>
    simp only [List.foldl_cons]
    simp only [List.map_cons, List.nodup_cons] at hnd
    have hstep : ((chunk_shard_one W r m t).1).entries
        = ts.map (fun st => (st.id, g st)) ++ acc
          ++ [(t.id, ((chunk_shard_one W r ⟨[]⟩ t).2).payload_bytes)] := by
      show (((m.delete_tensor t).add_tensor (chunk_shard_one W r m t).2)).entries = _
      have hdel : (m.delete_tensor t).entries
          = ts.map (fun st => (st.id, g st)) ++ acc := by
        rw [ModelDataTracer.delete_tensor, hm]
        simp only [List.map_cons, List.cons_append, List.filter_cons]
        rw [if_neg (by simp)]
        rw [List.filter_append]
        rw [filter_ne_of_map_not_mem _ _ (hfa t (List.mem_cons_self t ts))]
        congr 1
        rw [List.filter_eq_self]
        intro e he
        rcases List.mem_map.mp he with ⟨st, hst, rfl⟩
        simp only [ne_eq, decide_not, Bool.not_eq_eq_eq_not, Bool.not_true,
          decide_eq_false_iff_not]
        intro hid
        exact hnd.1 (hid ▸ List.mem_map.mpr ⟨st, hst, rfl⟩)
      have hid2 : ((chunk_shard_one W r m t).2).id = t.id := rfl
      have hfr : t.id ∉ ((m.delete_tensor t).entries).map Prod.fst := by
        rw [hdel]
        simp only [List.map_append, List.mem_append]
        rintro (h | h)
        · rcases List.mem_map.mp h with ⟨e, he, hide⟩
          rcases List.mem_map.mp he with ⟨st, hst, rfl⟩
          simp only at hide
          exact hnd.1 (hide ▸ List.mem_map.mpr ⟨st, hst, rfl⟩)
        · exact hfa t (List.mem_cons_self t ts) h
      have := add_tensor_entries_fresh (m.delete_tensor t)
        ((chunk_shard_one W r m t).2) (by rw [hid2]; exact hfr)
      rw [this, hdel, hid2]
      rfl
    have ihz := ih (chunk_shard_one W r m t).1
      (acc ++ [(t.id, ((chunk_shard_one W r ⟨[]⟩ t).2).payload_bytes)])
      hnd.2
      (by
        intro st hst
        simp only [List.map_append, List.mem_append, List.map_cons, List.map_nil]
        rintro (h | h)
        · exact hfa st (List.mem_cons_of_mem t hst) h
        · simp only [List.mem_singleton] at h
          exact hnd.1 (h ▸ List.mem_map.mpr ⟨st, hst, rfl⟩))
      (by rw [hstep, List.append_assoc])
    rw [ihz]
    simp

/-- Deleting every tracked tensor empties the tracer. -/
theorem delete_fold_entries_nil (l : List ShardedTensor) (m : ModelDataTracer)
    (g : ShardedTensor → Nat)
    (hnd : (l.map ShardedTensor.id).Nodup)
    (hm : m.entries = l.map (fun st => (st.id, g st))) :
    (l.foldl ModelDataTracer.delete_tensor m).entries = [] := by
  induction l generalizing m with
  | nil => simpa using hm
  | cons t ts ih =>
    simp only [List.foldl_cons]
    simp only [List.map_cons, List.nodup_cons] at hnd
    apply ih (m.delete_tensor t) hnd.2
    rw [ModelDataTracer.delete_tensor, hm]
    simp only [List.map_cons, List.filter_cons]
    rw [if_neg (by simp)]
    rw [List.filter_eq_self]
    intro e he
    rcases List.mem_map.mp he with ⟨st, hst, rfl⟩
    simp only [ne_eq, decide_not, Bool.not_eq_eq_eq_not, Bool.not_true,
      decide_eq_false_iff_not]
    intro hid
    exact hnd.1 (hid ▸ List.mem_map.mpr ⟨st, hst, rfl⟩)

theorem replaceSharded_map_id (upd : Nat → ShardedTensor → ShardedTensor)
    (hid : ∀ j t, (upd j t).id = t.id) (n : Nat) (l : List ShardedTensor) :
    (replaceSharded upd n l).map ShardedTensor.id = l.map ShardedTensor.id := by
  induction l generalizing n with
  | nil => rfl
  | cons t ts ih =>
    rw [replaceSharded]
    split
    · simp [hid, ih]
    · simp [ih]

/-- The freshly constructed (pre-shard) tensors of the cycle. -/
def initList (os : List (Nat × Tensor)) (W r : Nat) : List ShardedTensor :=
  os.map (fun o => ShardedTensor.init o.1 o.2 W r)

theorem allShards_flatten_length_ge (d : List Int) (W : Nat) (hW : 1 ≤ W) :
    d.length ≤ (allShards d W).flatten.length := by
  have h := congrArg List.length (allShards_flatten_take d W hW)
  simp only [List.length_take] at h
  omega

theorem bucketBufferList_headD_dtype (os : List (Nat × Tensor)) (W r : Nat)
    (dev : Device) (hne : os ≠ []) (hW : 1 ≤ W) :
    ((bucketBufferList W r dev (bucketRecv os W) (shardedList os W r)).headD
        default).dtype = (os.headD default).2.dtype := by
  obtain ⟨w, rfl⟩ : ∃ w, W = w + 1 := ⟨W - 1, by omega⟩
  cases os with
  | nil => exact absurd rfl hne
  | cons o os' =>
    rw [bucketBufferList]
    simp only [List.range_succ_eq_map, List.map_cons, List.headD_cons]
    by_cases h0 : (0 : Nat) = r
    · rw [if_pos h0]
      show (bucketOwnBuffer dev (shardedList (o :: os') (w + 1) r)).dtype = _
      rw [bucketOwnBuffer]
      show ((bucketFiltered (shardedList (o :: os') (w + 1) r)).headD
          default).payloadD.dtype = _
      rw [shardedList_filter]
      rfl
    · rw [if_neg h0]
      rfl

/-- C4 (amended).  Memory accounting closure for proper cycles: register a
(nonempty, distinct-identity, common-dtype) batch of tensors, shard them all,
bucket-gather the whole batch while all of them are still sharded — the
tracer's total returns exactly to its pre-cycle value.  (Totals are sums of
tracked byte sizes, hence never negative at any intermediate point.)  The
restriction to still-sharded gather lists is forced by the code: gathering an
already-unsharded tracked tensor deletes it from the tracer without
re-adding it. -/
theorem bucket_cycle_tracer_closure (os : List (Nat × Tensor)) (W r : Nat)
    (dev : Device) (dt : DType)
    (hW : 1 ≤ W) (hne : os ≠ [])
    (hnd : (os.map Prod.fst).Nodup)
    (hdt : ∀ o ∈ os, o.2.dtype = dt) :
    ((bucket_gather W r dev (bucketRecv os W)
        ((initList os W r).foldl (fun m st => (chunk_shard_one W r m st).1)
          ((initList os W r).foldl ModelDataTracer.add_tensor ⟨[]⟩))
        (shardedList os W r)).1).total
      = ((initList os W r).foldl ModelDataTracer.add_tensor ⟨[]⟩).total := by
  have hnd1 : ((initList os W r).map ShardedTensor.id).Nodup := by
    rw [initList, List.map_map]
    exact hnd
  have hndS : ((shardedList os W r).map ShardedTensor.id).Nodup := by
    rw [shardedList, List.map_map]
    exact hnd
  have hm0 : ((initList os W r).foldl ModelDataTracer.add_tensor
      (⟨[]⟩ : ModelDataTracer)).entries
      = (initList os W r).map (fun st => (st.id, st.payload_bytes)) := by
    have h := add_fold_entries (initList os W r) ⟨[]⟩ hnd1 (by intro st _; simp)
    simpa using h
  have hmS : (((initList os W r).foldl (fun m st => (chunk_shard_one W r m st).1)
      ((initList os W r).foldl ModelDataTracer.add_tensor ⟨[]⟩))).entries
      = (shardedList os W r).map (fun st => (st.id, st.payload_bytes)) := by
    have h := shard_fold_entries W r (initList os W r)
      ((initList os W r).foldl ModelDataTracer.add_tensor ⟨[]⟩) []
      ShardedTensor.payload_bytes hnd1 (by simp) (by rw [hm0]; simp)
    rw [h]
    simp only [List.nil_append]
    rw [initList, shardedList, List.map_map, List.map_map]
    rfl
  have hlenS : (shardedList os W r).length = os.length := by
    rw [shardedList, List.length_map]
  have hneS : bucketFiltered (shardedList os W r) ≠ [] := by
    rw [shardedList_filter]
    intro h0
    apply hne
    cases os with
    | nil => rfl
    | cons o os' => simp [shardedList] at h0
  rw [bucket_gather, if_neg hneS]
  show ((replaceSharded (bucketUpd W r dev (bucketRecv os W) (shardedList os W r)) 0
      (bucketFiltered (shardedList os W r))).foldl ModelDataTracer.add_tensor
        ((shardedList os W r).foldl ModelDataTracer.delete_tensor
          ((initList os W r).foldl (fun m st => (chunk_shard_one W r m st).1)
            ((initList os W r).foldl ModelDataTracer.add_tensor ⟨[]⟩)))).total
      = _
  rw [shardedList_filter]
  have hm1 : (((shardedList os W r).foldl ModelDataTracer.delete_tensor
      ((initList os W r).foldl (fun m st => (chunk_shard_one W r m st).1)
        ((initList os W r).foldl ModelDataTracer.add_tensor ⟨[]⟩)))).entries = [] :=
    delete_fold_entries_nil (shardedList os W r) _ ShardedTensor.payload_bytes hndS hmS
  have hupdid : ∀ (j : Nat) (t : ShardedTensor),
      (bucketUpd W r dev (bucketRecv os W) (shardedList os W r) j t).id = t.id :=
    fun j t => rfl
  have hndR : (((replaceSharded
      (bucketUpd W r dev (bucketRecv os W) (shardedList os W r)) 0
      (shardedList os W r))).map ShardedTensor.id).Nodup := by
    rw [replaceSharded_map_id _ hupdid]
    exact hndS
  have hm2 := add_fold_entries
    (replaceSharded (bucketUpd W r dev (bucketRecv os W) (shardedList os W r)) 0
      (shardedList os W r))
    ((shardedList os W r).foldl ModelDataTracer.delete_tensor
      ((initList os W r).foldl (fun m st => (chunk_shard_one W r m st).1)
        ((initList os W r).foldl ModelDataTracer.add_tensor ⟨[]⟩)))
    hndR (by rw [hm1]; intro st _; simp)
  have hdtype : ((bucketBufferList W r dev (bucketRecv os W)
      (shardedList os W r)).headD default).dtype = dt := by
    rw [bucketBufferList_headD_dtype os W r dev hne hW]
    cases os with
    | nil => exact absurd rfl hne
    | cons o os' => exact hdt o (List.mem_cons_self o os')
  have hbytes : ((replaceSharded
      (bucketUpd W r dev (bucketRecv os W) (shardedList os W r)) 0
      (shardedList os W r))).map ShardedTensor.payload_bytes
      = os.map (fun o => o.2.data.length * dt.itemsize) := by
    apply List.ext_getElem
    · rw [List.length_map, replaceSharded_length, hlenS, List.length_map]
    · intro j h1 h2
      have hjos : j < os.length := by
        rw [List.length_map, replaceSharded_length, hlenS] at h1
        exact h1
      have hstj : (shardedList os W r).getD j default
          = shardedAt (os.getD j default).1 (os.getD j default).2 W r := by
        rw [shardedList]
        exact getD_map_of_lt os _ j hjos
      have hshj : ((shardedList os W r).getD j default).is_sharded = true := by
        rw [hstj]
        rfl
      simp only [List.getElem_map]
      rw [← List.getD_eq_getElem
        (replaceSharded (bucketUpd W r dev (bucketRecv os W) (shardedList os W r)) 0
          (shardedList os W r)) default
        (by rw [replaceSharded_length, hlenS]; exact hjos)]
      rw [replaceSharded_getD_sharded _ 0 j (shardedList os W r)
        (by rw [hlenS]; exact hjos) hshj]
      rw [shardedBefore_of_all (shardedList os W r)
        (shardedList_all_sharded os W r) j (by rw [hlenS]; omega)]
      rw [Nat.zero_add]
      rw [bucketUpd_eval os W r dev hW j hjos]
      show (((allShards (os.getD j default).2.data W).flatten).take
          ((shardedList os W r).getD j default).origin_numel).length
          * ((bucketBufferList W r dev (bucketRecv os W)
              (shardedList os W r)).headD default).dtype.itemsize
          = (os[j].2.data.length) * dt.itemsize
      rw [hdtype, hstj, shardedAt_origin_numel]
      rw [List.length_take]
      have hge := allShards_flatten_length_ge (os.getD j default).2.data W hW
      rw [Nat.min_eq_left hge]
      rw [List.getD_eq_getElem os default hjos]
  have hm0total : ((initList os W r).foldl ModelDataTracer.add_tensor
      (⟨[]⟩ : ModelDataTracer)).total
      = (os.map (fun o => o.2.data.length * dt.itemsize)).sum := by
    rw [ModelDataTracer.total, hm0]
    rw [List.map_map, initList, List.map_map]
    congr 1
    apply List.map_congr_left
    intro o ho
    show (ShardedTensor.init o.1 o.2 W r).payload_bytes = o.2.data.length * dt.itemsize
    show o.2.numel * o.2.dtype.itemsize = _
    rw [hdt o ho]
    rfl
  rw [ModelDataTracer.total, hm2, hm1]
  simp only [List.nil_append, List.map_map]
  rw [hm0total]
  congr 1

/-- C4 counterexample: a complete cycle (register, shard, gather, gather
again — no net new tensors) does NOT return the tracked total to its
pre-cycle value: the second gather deletes the (now unsharded, still
tracked) tensor and never re-adds it, leaving the total at 0 instead of 8. -/
theorem bucket_gather_tracer_leak_counterexample :
    (let st0 := ShardedTensor.init 0 ⟨[2], .f32, .cpu, [1, 2]⟩ 1 0
     let m0 := ModelDataTracer.add_tensor ⟨[]⟩ st0
     let p := chunk_shard_one 1 0 m0 st0
     let g1 := bucket_gather 1 0 Device.cpu (fun k => []) p.1 [p.2]
     let g2 := bucket_gather 1 0 Device.cpu (fun k => []) g1.1 g1.2
     m0.total = 8 ∧ g1.1.total = 8 ∧ g2.1.total = 0) := by
  decide

/-- C4 witness: a concrete proper cycle over two f32 tensors of numel 2 and
3 at `W = 2`: the pre-cycle total is 20 bytes and the post-cycle total
returns to 20. -/
theorem bucket_cycle_tracer_closure_witness :
    ((initList [(0, (⟨[2], .f32, .cpu, [1, 2]⟩ : Tensor)),
        (1, (⟨[3], .f32, .cpu, [3, 4, 5]⟩ : Tensor))] 2 0).foldl
      ModelDataTracer.add_tensor ⟨[]⟩).total = 20 ∧
    ((bucket_gather 2 0 Device.cpu
        (bucketRecv [(0, (⟨[2], .f32, .cpu, [1, 2]⟩ : Tensor)),
          (1, (⟨[3], .f32, .cpu, [3, 4, 5]⟩ : Tensor))] 2)
        ((initList [(0, (⟨[2], .f32, .cpu, [1, 2]⟩ : Tensor)),
            (1, (⟨[3], .f32, .cpu, [3, 4, 5]⟩ : Tensor))] 2 0).foldl
          (fun m st => (chunk_shard_one 2 0 m st).1)
          ((initList [(0, (⟨[2], .f32, .cpu, [1, 2]⟩ : Tensor)),
              (1, (⟨[3], .f32, .cpu, [3, 4, 5]⟩ : Tensor))] 2 0).foldl
            ModelDataTracer.add_tensor ⟨[]⟩))
        (shardedList [(0, (⟨[2], .f32, .cpu, [1, 2]⟩ : Tensor)),
          (1, (⟨[3], .f32, .cpu, [3, 4, 5]⟩ : Tensor))] 2 0)).1).total = 20 :=
  ⟨by decide,
   (bucket_cycle_tracer_closure
      [(0, (⟨[2], .f32, .cpu, [1, 2]⟩ : Tensor)),
       (1, (⟨[3], .f32, .cpu, [3, 4, 5]⟩ : Tensor))] 2 0 Device.cpu .f32
      (by decide) (by decide) (by decide) (by decide)).trans (by decide)⟩

/-! ## ZeroInitContext._post_init_method (`init_ctx/init_context.py` 151-183)

Parameters are modelled by their index into a fixed table of element counts;
`col_attr` becomes a per-index wrapped flag, `GLOBAL_MODEL_DATA_TRACER`
registrations become the ordered list of registered indices, and
`model_numel_tensor` the running total. -/

/-- Mutable state seen by the post-construction callback. -/
structure ZeroCtxState where
  wrapped : List Bool
  tracer_ids : List Nat
  total : Nat
deriving DecidableEq, Repr

/-- Lines 156-183 for one parameter: a parameter that already has `col_attr`
is skipped silently; otherwise its numel is added to the running total, it is
wrapped (`col_attr` set), and registered with the tracer. -/
def post_init_step (numels : List Nat) (s : ZeroCtxState) (i : Nat) : ZeroCtxState :=
  if s.wrapped.getD i false then s
  else
    { wrapped := s.wrapped.set i true
      tracer_ids := s.tracer_ids ++ [i]
      total := s.total + numels.getD i 0 }

/-- `_post_init_method(module)`: iterate `module.parameters()` in order.
The note at line 154 warns the module may be passed multiple times. -/
def post_init_method (numels : List Nat) (s : ZeroCtxState)
    (module_params : List Nat) : ZeroCtxState :=
  module_params.foldl (post_init_step numels) s

theorem getD_set_self {α : Type} (l : List α) (i : Nat) (a d : α)
    (h : i < l.length) : (l.set i a).getD i d = a := by
  rw [List.getD_eq_getElem _ _ (by simpa using h)]
  simp [List.getElem_set]

theorem getD_set_ne {α : Type} (l : List α) (i j : Nat) (a d : α)
    (h : j ≠ i) : (l.set i a).getD j d = l.getD j d := by
  by_cases hj : j < l.length
  · rw [List.getD_eq_getElem _ _ (by simpa using hj), List.getD_eq_getElem _ _ hj]
    simp only [List.getElem_set]
    rw [if_neg (fun he => h he.symm)]
  · rw [List.getD_eq_default _ _ (by simp only [List.length_set]; omega),
      List.getD_eq_default _ _ (by omega)]

/-- The processing invariant: the wrapped table keeps its size, the tracer
holds each wrapped index exactly once (and unwrapped indices zero times), and
the total is the sum of the wrapped parameters' numels. -/
def ctxInv (numels : List Nat) (s : ZeroCtxState) : Prop :=
  s.wrapped.length = numels.length ∧
  (∀ i : Nat, s.tracer_ids.count i = if s.wrapped.getD i false then 1 else 0) ∧
  s.total = ∑ i ∈ Finset.range numels.length,
    (if s.wrapped.getD i false then numels.getD i 0 else 0)

theorem post_init_step_inv (numels : List Nat) (s : ZeroCtxState) (i : Nat)
    (hi : i < numels.length) (hinv : ctxInv numels s) :
    ctxInv numels (post_init_step numels s i) := by
  obtain ⟨hlen, hcount, htot⟩ := hinv
  rw [post_init_step]
  split
  · exact ⟨hlen, hcount, htot⟩
  · rename_i hw
    have hwf : s.wrapped.getD i false = false := by
      cases h : s.wrapped.getD i false
      · rfl
      · exact absurd h hw
    refine ⟨by simp [List.length_set, hlen], ?_, ?_⟩
    · intro j
      show (s.tracer_ids ++ [i]).count j = _
      rw [List.count_append]
      by_cases hji : j = i
      · subst hji
        rw [getD_set_self _ _ _ _ (by rw [hlen]; exact hi)]
        rw [hcount j, hwf]
        simp [List.count_singleton']
      · rw [getD_set_ne _ _ _ _ _ hji]
        rw [hcount j]
        have : ([i] : List Nat).count j = 0 := by
          simp [List.count_singleton', hji]
        omega
    · show s.total + numels.getD i 0 = _
      rw [htot]
      have hstep : ∀ j ∈ Finset.range numels.length,
          (if (s.wrapped.set i true).getD j false then numels.getD j 0 else 0)
            = (if s.wrapped.getD j false then numels.getD j 0 else 0)
              + (if j = i then numels.getD i 0 else 0) := by
        intro j _
        by_cases hji : j = i
        · subst hji
          rw [getD_set_self _ _ _ _ (by rw [hlen]; exact hi), hwf]
          simp
        · rw [getD_set_ne _ _ _ _ _ hji]
          simp [hji]
      rw [Finset.sum_congr rfl hstep, Finset.sum_add_distrib]
      rw [Finset.sum_ite_eq' (Finset.range numels.length) i (fun _ => numels.getD i 0)]
      rw [if_pos (Finset.mem_range.mpr hi)]

theorem post_init_step_mono (numels : List Nat) (s : ZeroCtxState) (i j : Nat)
    (h : s.wrapped.getD j false = true) :
    (post_init_step numels s i).wrapped.getD j false = true := by
  rw [post_init_step]
  split
  · exact h
  · show (s.wrapped.set i true).getD j false = true
    by_cases hji : j = i
    · subst hji
      by_cases hl : j < s.wrapped.length
      · rw [getD_set_self _ _ _ _ hl]
      · rw [List.getD_eq_default _ _ (by omega)] at h
        exact absurd h (by simp)
    · rw [getD_set_ne _ _ _ _ _ hji]
      exact h

theorem post_init_step_length (numels : List Nat) (s : ZeroCtxState) (i : Nat) :
    (post_init_step numels s i).wrapped.length = s.wrapped.length := by
  rw [post_init_step]
  split
  · rfl
  · simp [List.length_set]

theorem post_init_method_mono (numels : List Nat) (mp : List Nat)
    (s : ZeroCtxState) (j : Nat) (h : s.wrapped.getD j false = true) :
    (post_init_method numels s mp).wrapped.getD j false = true := by
  induction mp generalizing s with
  | nil => exact h
  | cons a mp' ih =>
    exact ih (post_init_step numels s a) (post_init_step_mono numels s a j h)

theorem post_init_method_length (numels : List Nat) (mp : List Nat)
    (s : ZeroCtxState) :
    (post_init_method numels s mp).wrapped.length = s.wrapped.length := by
  induction mp generalizing s with
  | nil => rfl
  | cons a mp' ih =>
    show (post_init_method numels (post_init_step numels s a) mp').wrapped.length = _
    rw [ih (post_init_step numels s a), post_init_step_length]

theorem post_init_method_covers (numels : List Nat) (mp : List Nat)
    (s : ZeroCtxState) (j : Nat) (hj : j ∈ mp) (hlen : j < s.wrapped.length) :
    (post_init_method numels s mp).wrapped.getD j false = true := by
  induction mp generalizing s with
  | nil => simp at hj
  | cons a mp' ih =>
    show (post_init_method numels (post_init_step numels s a) mp').wrapped.getD
        j false = true
    rcases List.mem_cons.mp hj with rfl | hj'
    · apply post_init_method_mono
      rw [post_init_step]
      split
      · rename_i hw
        exact hw
      · exact getD_set_self _ _ _ _ hlen
    · exact ih (post_init_step numels s a) hj'
        (by rw [post_init_step_length]; exact hlen)

theorem post_init_method_inv (numels : List Nat) (mp : List Nat)
    (s : ZeroCtxState) (hb : ∀ i ∈ mp, i < numels.length)
    (hinv : ctxInv numels s) : ctxInv numels (post_init_method numels s mp) := by
  induction mp generalizing s with
  | nil => exact hinv
  | cons a mp' ih =>
    exact ih (post_init_step numels s a)
      (fun i hi => hb i (List.mem_cons_of_mem a hi))
      (post_init_step_inv numels s a (hb a (List.mem_cons_self a mp')) hinv)

theorem sum_range_getD (l : List Nat) :
    ∑ i ∈ Finset.range l.length, l.getD i 0 = l.sum := by
  induction l with
  | nil => simp
  | cons a tl ih =>
    rw [List.length_cons, Finset.sum_range_succ']
    simp only [List.getD_cons_succ, List.getD_cons_zero]
    rw [ih, List.sum_cons]
    omega

theorem calls_fold_mono (numels : List Nat) (calls : List (List Nat))
    (s : ZeroCtxState) (j : Nat) (h : s.wrapped.getD j false = true) :
    (calls.foldl (post_init_method numels) s).wrapped.getD j false = true := by
  induction calls generalizing s with
  | nil => exact h
  | cons c cs ih => exact ih _ (post_init_method_mono numels c s j h)

theorem calls_fold_length (numels : List Nat) (calls : List (List Nat))
    (s : ZeroCtxState) :
    (calls.foldl (post_init_method numels) s).wrapped.length = s.wrapped.length := by
  induction calls generalizing s with
  | nil => rfl
  | cons c cs ih =>
    show (cs.foldl (post_init_method numels) (post_init_method numels s c)).wrapped.length = _
    rw [ih, post_init_method_length]

theorem calls_fold_covers (numels : List Nat) (calls : List (List Nat))
    (s : ZeroCtxState) (i : Nat)
    (hex : ∃ c ∈ calls, i ∈ c) (hlen : i < s.wrapped.length) :
    (calls.foldl (post_init_method numels) s).wrapped.getD i false = true := by
  induction calls generalizing s with
  | nil =>
    rcases hex with ⟨c, hc, _⟩
    simp at hc
  | cons c cs ih =>
    rcases hex with ⟨c', hc', hi⟩
    show (cs.foldl (post_init_method numels)
        (post_init_method numels s c)).wrapped.getD i false = true
    rcases List.mem_cons.mp hc' with rfl | hcs
    · exact calls_fold_mono numels cs _ i
        (post_init_method_covers numels c' s i hi hlen)
    · exact ih (post_init_method numels s c) ⟨c', hcs, hi⟩
        (by rw [post_init_method_length]; exact hlen)

theorem calls_fold_inv (numels : List Nat) (calls : List (List Nat))
    (s : ZeroCtxState) (hb : ∀ c ∈ calls, ∀ i ∈ c, i < numels.length)
    (hinv : ctxInv numels s) :
    ctxInv numels (calls.foldl (post_init_method numels) s) := by
  induction calls generalizing s with
  | nil => exact hinv
  | cons c cs ih =>
    exact ih (post_init_method numels s c)
      (fun c' hc' => hb c' (List.mem_cons_of_mem c hc'))
      (post_init_method_inv numels c s (hb c (List.mem_cons_self c cs)) hinv)

theorem ctxInv_initial (numels : List Nat) :
    ctxInv numels ⟨List.replicate numels.length false, [], 0⟩ := by
  have hval : ∀ i : Nat, (List.replicate numels.length false).getD i false = false := by
    intro i
    by_cases h : i < numels.length
    · rw [List.getD_eq_getElem _ _ (by simpa using h)]
      simp
    · rw [List.getD_eq_default _ _ (by simpa using h)]
  refine ⟨by simp, ?_, ?_⟩
  · intro i
    show ([] : List Nat).count i = _
    rw [hval i]
    simp
  · show 0 = _
    have h0 : ∀ i ∈ Finset.range numels.length,
        (if (List.replicate numels.length false).getD i false then numels.getD i 0 else 0)
          = 0 := by
      intro i _
      rw [hval i]
      simp
    rw [Finset.sum_congr rfl h0]
    simp

theorem post_init_method_noop (numels : List Nat) (mp : List Nat)
    (s : ZeroCtxState) (h : ∀ i ∈ mp, s.wrapped.getD i false = true) :
    post_init_method numels s mp = s := by
  induction mp with
  | nil => rfl
  | cons a mp' ih =>
    show post_init_method numels (post_init_step numels s a) mp' = s
    have hstep : post_init_step numels s a = s := by
      rw [post_init_step, if_pos (h a (List.mem_cons_self a mp'))]
    rw [hstep]
    exact ih (fun i hi => h i (List.mem_cons_of_mem a hi))

/-- C5.  Exactly-once processing inside an active ZeroInitContext: however
often the post-construction callback fires over (overlapping) parameter sets
that jointly cover the module's `K` parameters, each parameter ends wrapped,
is registered with the tracer exactly once, and its numel is counted exactly
once in the running total (which therefore equals the sum of all numels);
re-firing the callback afterwards is a silent no-op, never an error. -/
theorem init_ctx_exactly_once (numels : List Nat) (calls : List (List Nat))
    (hb : ∀ c ∈ calls, ∀ i ∈ c, i < numels.length)
    (hcov : ∀ i, i < numels.length → ∃ c ∈ calls, i ∈ c) :
    (∀ i, i < numels.length →
      (calls.foldl (post_init_method numels)
        ⟨List.replicate numels.length false, [], 0⟩).wrapped.getD i false = true) ∧
    (∀ i, i < numels.length →
      (calls.foldl (post_init_method numels)
        ⟨List.replicate numels.length false, [], 0⟩).tracer_ids.count i = 1) ∧
    (calls.foldl (post_init_method numels)
      ⟨List.replicate numels.length false, [], 0⟩).total = numels.sum ∧
    (∀ mp : List Nat, (∀ i ∈ mp, i < numels.length) →
      post_init_method numels
        (calls.foldl (post_init_method numels)
          ⟨List.replicate numels.length false, [], 0⟩) mp
        = calls.foldl (post_init_method numels)
            ⟨List.replicate numels.length false, [], 0⟩) := by
  have hw : ∀ i, i < numels.length →
      (calls.foldl (post_init_method numels)
        ⟨List.replicate numels.length false, [], 0⟩).wrapped.getD i false = true := by
    intro i hi
    exact calls_fold_covers numels calls _ i (hcov i hi) (by simpa using hi)
  obtain ⟨hlen, hcount, htot⟩ :=
    calls_fold_inv numels calls _ hb (ctxInv_initial numels)
  refine ⟨hw, ?_, ?_, ?_⟩
  · intro i hi
    rw [hcount i, if_pos (hw i hi)]
  · rw [htot]
    have h1 : ∀ i ∈ Finset.range numels.length,
        (if (calls.foldl (post_init_method numels)
            ⟨List.replicate numels.length false, [], 0⟩).wrapped.getD i false
          then numels.getD i 0 else 0) = numels.getD i 0 := by
      intro i hi
      exact if_pos (hw i (Finset.mem_range.mp hi))
    rw [Finset.sum_congr rfl h1, sum_range_getD]
  · intro mp hmp
    exact post_init_method_noop numels mp _ (fun i hi => hw i (hmp i hi))

/-- C5 witness: two parameters of numel 4 and 6 processed through nested
construction (`[[0], [0, 1]]`): each is registered exactly once, the total is
10, and re-firing the callback changes nothing. -/
theorem init_ctx_exactly_once_witness :
    ((([[0], [0, 1]] : List (List Nat)).foldl (post_init_method [4, 6])
      ⟨List.replicate 2 false, [], 0⟩).tracer_ids.count 0 = 1) ∧
    ((([[0], [0, 1]] : List (List Nat)).foldl (post_init_method [4, 6])
      ⟨List.replicate 2 false, [], 0⟩).tracer_ids.count 1 = 1) ∧
    ((([[0], [0, 1]] : List (List Nat)).foldl (post_init_method [4, 6])
      ⟨List.replicate 2 false, [], 0⟩).total = 10) ∧
    (post_init_method [4, 6]
      (([[0], [0, 1]] : List (List Nat)).foldl (post_init_method [4, 6])
        ⟨List.replicate 2 false, [], 0⟩) [0, 1]
      = ([[0], [0, 1]] : List (List Nat)).foldl (post_init_method [4, 6])
          ⟨List.replicate 2 false, [], 0⟩) := by
  have h := init_ctx_exactly_once [4, 6] [[0], [0, 1]] (by decide) (by decide)
  exact ⟨h.2.1 0 (by decide), h.2.1 1 (by decide),
    (h.2.2.1).trans (by decide), h.2.2.2 [0, 1] (by decide)⟩

/-! ## InsertPostInitMethodToModuleSubClasses scope (init_context.py 17-81) -/

/-- A class's `__init__` as currently installed: the original constructor of
class `cls`, or a `preprocess_after` wrapper around another constructor (the
wrapper runs `_post_init_method` after the wrapped constructor). -/
inductive InitFn where
  | orig (cls : Nat)
  | wrapped (f : InitFn)
deriving DecidableEq, Repr

/-- Constructing an instance fires the interception callback iff the
installed constructor is a wrapper. -/
def triggers_hook : InitFn → Bool
  | .orig _ => false
  | .wrapped _ => true

/-- One subclass of `torch.nn.Module`: whether it is a DIRECT subclass
(`Module.__subclasses__()` enumerates only those), its installed `__init__`,
and its `_old_init` attribute when set. -/
structure PyClass where
  id : Nat
  direct_subclass : Bool
  init : InitFn
  old_init : Option InitFn
deriving DecidableEq, Repr

instance : Inhabited PyClass := ⟨⟨0, false, .orig 0, none⟩⟩

/-- The registry of Module subclasses, plus whether
`Module.__init_subclass__` has been replaced to intercept future classes. -/
structure ModuleRegistry where
  classes : List PyClass
  intercept_new : Bool
deriving DecidableEq, Repr

instance : Inhabited ModuleRegistry := ⟨⟨[], false⟩⟩

/-- `__enter__` (lines 22-54): for every existing DIRECT subclass save
`cls._old_init = cls.__init__` and install the wrapper; replace
`__init_subclass__` so classes defined later get wrapped too. -/
def ctx_enter (R : ModuleRegistry) : ModuleRegistry :=
  { classes := R.classes.map (fun c =>
      if c.direct_subclass then
        { c with old_init := some c.init, init := .wrapped c.init }
      else c)
    intercept_new := true }

/-- Defining a new subclass of Module (lines 41-42, 52): while the scope is
active, the replaced `__init_subclass__` wraps the new class's `__init__`;
it never saves `_old_init`. -/
def define_class (R : ModuleRegistry) (cid : Nat) (direct : Bool) : ModuleRegistry :=
  { R with classes := R.classes ++
      [{ id := cid
         direct_subclass := direct
         init := if R.intercept_new then .wrapped (.orig cid) else .orig cid
         old_init := none }] }

/-- `__exit__` (lines 56-71): set `cls.__init__ = cls._old_init` for every
DIRECT subclass of Module (an `AttributeError` — modelled as `none` — when a
direct subclass never got `_old_init`), restore `__init_subclass__`, and only
afterwards re-raise a pending exception: the restoration itself ignores
`exc`. -/
def ctx_exit (exc : Bool) (R : ModuleRegistry) : Option ModuleRegistry :=
  if R.classes.all (fun c => !c.direct_subclass || c.old_init.isSome) then
    some
      { classes := R.classes.map (fun c =>
          if c.direct_subclass then { c with init := c.old_init.getD c.init } else c)
        intercept_new := false }
  else none

theorem define_fold_classes (ds : List (Nat × Bool)) (R : ModuleRegistry)
    (hR : R.intercept_new = true) :
    (ds.foldl (fun R d => define_class R d.1 d.2) R).classes
      = R.classes ++ ds.map (fun d => ⟨d.1, d.2, .wrapped (.orig d.1), none⟩) ∧
    (ds.foldl (fun R d => define_class R d.1 d.2) R).intercept_new = true := by
  induction ds generalizing R with
  | nil => exact ⟨by simp, hR⟩
  | cons d ds' ih =>
    have hstep : define_class R d.1 d.2
        = { R with classes := R.classes
            ++ [⟨d.1, d.2, .wrapped (.orig d.1), none⟩] } := by
      rw [define_class, hR]
      simp
    have ih' := ih (define_class R d.1 d.2) (by rw [hstep]; exact hR)
    constructor
    · show (ds'.foldl (fun R d => define_class R d.1 d.2)
          (define_class R d.1 d.2)).classes = _
      rw [ih'.1, hstep]
      simp
    · exact ih'.2

/-- C7 counterexample: a subclass first defined inside the scope at depth ≥ 2
(not a direct subclass of Module) keeps its interception wrapper after
`__exit__` completes successfully, so constructing it after exit still fires
the callback — the claimed full restoration is false on the code. -/
theorem ctx_exit_leftover_hook_counterexample :
    (ctx_exit false
        (define_class (ctx_enter ⟨[⟨0, true, .orig 0, none⟩], false⟩) 1 false)).isSome
      = true ∧
    triggers_hook ((((ctx_exit false
        (define_class (ctx_enter ⟨[⟨0, true, .orig 0, none⟩], false⟩) 1 false)).getD
          default).classes.getD 1 default).init) = true := by
  decide

/-- C7 (amended).  `__exit__` — with or without a pending exception —
restores the original constructor of every DIRECT subclass of the module
base that existed at entry, and de-installs the future-subclass
interception; but a class first defined while the scope was active is not
restored: a non-direct one keeps its wrapper (constructing it after exit
still triggers the callback), and a direct one makes exit fail for lack of a
saved `_old_init`. -/
theorem ctx_exit_restores (R0 : ModuleRegistry) (ds : List (Nat × Bool))
    (exc : Bool) :
    ((∀ d ∈ ds, d.2 = false) →
      (ctx_exit exc (ds.foldl (fun R d => define_class R d.1 d.2)
          (ctx_enter R0))).isSome = true ∧
      ((ctx_exit exc (ds.foldl (fun R d => define_class R d.1 d.2)
          (ctx_enter R0))).getD default).classes.map PyClass.init
        = R0.classes.map PyClass.init
          ++ ds.map (fun d => InitFn.wrapped (.orig d.1)) ∧
      ((ctx_exit exc (ds.foldl (fun R d => define_class R d.1 d.2)
          (ctx_enter R0))).getD default).intercept_new = false) ∧
    ((∃ d ∈ ds, d.2 = true) →
      ctx_exit exc (ds.foldl (fun R d => define_class R d.1 d.2)
        (ctx_enter R0)) = none) := by
  have hfold := define_fold_classes ds (ctx_enter R0) rfl
  constructor
  · intro hnd
    have hall : ((ds.foldl (fun R d => define_class R d.1 d.2)
        (ctx_enter R0)).classes.all
          (fun c => !c.direct_subclass || c.old_init.isSome)) = true := by
      rw [hfold.1, List.all_append]
      apply Bool.and_eq_true_iff.mpr
      constructor
      · rw [List.all_eq_true]
        intro c hc
        rcases List.mem_map.mp hc with ⟨c0, _, rfl⟩
        by_cases hd : c0.direct_subclass
        · simp [hd]
        · simp [hd]
      · rw [List.all_eq_true]
        intro c hc
        rcases List.mem_map.mp hc with ⟨d, hd, rfl⟩
        simp [hnd d hd]
    rw [ctx_exit, if_pos hall]
    refine ⟨rfl, ?_, rfl⟩
    show ((ds.foldl (fun R d => define_class R d.1 d.2)
        (ctx_enter R0)).classes.map (fun c =>
          if c.direct_subclass then { c with init := c.old_init.getD c.init }
          else c)).map PyClass.init = _
    rw [hfold.1]
    simp only [List.map_append, List.map_map]
    congr 1
    · rw [ctx_enter]
      simp only [List.map_map]
      apply List.map_congr_left
      intro c _
      simp only [Function.comp_apply]
      by_cases hd : c.direct_subclass
      · simp [hd]
      · simp [hd]
    · apply List.map_congr_left
      intro d hd
      simp only [Function.comp_apply]
      rw [if_neg (by simp [hnd d hd])]
  · rintro ⟨d, hd, hdir⟩
    have hmem : (⟨d.1, d.2, .wrapped (.orig d.1), none⟩ : PyClass)
        ∈ (ds.foldl (fun R d => define_class R d.1 d.2) (ctx_enter R0)).classes := by
      rw [hfold.1]
      exact List.mem_append_right _ (List.mem_map.mpr ⟨d, hd, rfl⟩)
    rw [ctx_exit, if_neg]
    intro hall
    have := List.all_eq_true.mp hall _ hmem
    rw [hdir] at this
    simp at this

/-- C7 witness for the amended claim: one pre-existing direct subclass and
one non-direct subclass defined during the scope, exiting on the exception
path: the pre-existing class's constructor is restored while the scope-born
class stays wrapped; a direct scope-born class makes exit fail. -/
theorem ctx_exit_restores_witness :
    ((ctx_exit true (([((1 : Nat), false)]).foldl
        (fun R d => define_class R d.1 d.2)
        (ctx_enter ⟨[⟨0, true, .orig 0, none⟩], false⟩))).isSome = true ∧
      ((ctx_exit true (([((1 : Nat), false)]).foldl
          (fun R d => define_class R d.1 d.2)
          (ctx_enter ⟨[⟨0, true, .orig 0, none⟩], false⟩))).getD
        default).classes.map PyClass.init
        = [InitFn.orig 0] ++ [InitFn.wrapped (.orig 1)]) ∧
    (ctx_exit true (([((2 : Nat), true)]).foldl
        (fun R d => define_class R d.1 d.2)
        (ctx_enter ⟨[⟨0, true, .orig 0, none⟩], false⟩)) = none) := by
  have h1 := ctx_exit_restores ⟨[⟨0, true, .orig 0, none⟩], false⟩
    [((1 : Nat), false)] true
  have h2 := ctx_exit_restores ⟨[⟨0, true, .orig 0, none⟩], false⟩
    [((2 : Nat), true)] true
  have h1' := h1.1 (by decide)
  refine ⟨⟨h1'.1, ?_⟩, h2.2 ⟨(2, true), by decide, rfl⟩⟩
  rw [h1'.2.1]
  rfl

end ColossalAI
